import Mathlib

/-!
# go-imapreader: the `List` operation of `reader.go`

A shallow embedding of `reader.go`.  The IMAP transport (`imap.Client` of
`github.com/mxk/go-imap`) is outside the repository: it appears here as a
parameter, a deterministic machine `Client σ` that answers each command the
reader issues.  Every call into the transport is recorded in a trace carried
by the reader, so that statements about "the commands issued" are statements
about that trace.

Go conventions used below
* a Go `error` result is `Option Error` (`none` is `nil`);
* a function returning a slice and an error returns a pair, the `nil` slice
  being `[]`;
* a run that panics (index out of range, failed type assertion, nil
  dereference) is `Run.panic`; a run that returns is `Run.ret`.
-/

namespace Imapreader

/-- Go `error` values, identified by their message. -/
abbrev Error := String

/-- Byte strings (`[]byte`, and the contents of a `bytes.Buffer`). -/
abbrev Bytes := List Char

/-- Outcome of running Go code that may panic. -/
inductive Run (α : Type) where
  | ret (a : α)
  | panic (msg : String)
deriving DecidableEq, Repr

/-! ## Transport data (`github.com/mxk/go-imap/imap`) -/

/-- Go `imap.Literal`: the bytes it holds and the error its `WriteTo` reports,
if any. -/
structure Literal where
  data : Bytes
  err : Option Error
deriving DecidableEq, Repr

/-- Go `Literal.WriteTo(&buf)`: the literal's bytes are appended to the buffer
and the literal's error, if any, is returned. -/
def Literal.WriteTo (l : Literal) (buf : Bytes) : Bytes × Option Error :=
  (buf ++ l.data, l.err)

/-- Go `imap.Field` is `interface{}`: the dynamic values that occur are strings,
numbers, literals and `nil`. -/
inductive Field where
  | str (s : String)
  | num (n : Nat)
  | literal (l : Literal)
  | nil
deriving DecidableEq, Repr

/-- Go `imap.FlagSet` is `map[string]bool`.  A Go map has each key once; the
order of `entries` stands for the order in which `range` enumerates the map,
which the runtime chooses. -/
structure FlagSet where
  entries : List (String × Bool)
  nodup : (entries.map Prod.fst).Nodup

/-- Keys of the flag set, in enumeration order. -/
def FlagSet.keys (fs : FlagSet) : List String := fs.entries.map Prod.fst

/-- Go `len(fs)`. -/
def FlagSet.len (fs : FlagSet) : Nat := fs.entries.length

/-- Go `imap.NewFlagSet(v...)`: every given flag mapped to `true`. -/
def NewFlagSet (v : List String) : FlagSet where
  entries := v.dedup.map (fun k => (k, true))
  nodup := by
    have h : (v.dedup.map (fun k => (k, true))).map Prod.fst = v.dedup := by
      simp [List.map_map, Function.comp_def]
    rw [h]
    exact List.nodup_dedup v

/-- Go `imap.SeqSet`: the identifiers it was given, in order. -/
structure SeqSet where
  nums : List Nat
deriving DecidableEq, Repr

/-- Go `imap.NewSeqSet("")`: the empty set. -/
def NewSeqSet : SeqSet := ⟨[]⟩

/-- Go `set.AddNum(nums...)`. -/
def SeqSet.AddNum (s : SeqSet) (nums : List Nat) : SeqSet := ⟨s.nums ++ nums⟩

/-- Go `imap.MessageInfo`: the attributes of one FETCH record and its flags.
`Attrs` is a Go map; indexing it is `List.lookup`. -/
structure MessageInfo where
  Attrs : List (String × Field)
  Flags : FlagSet

/-- Go `imap.Response`: an untagged response collected for a command. -/
inductive Response where
  | search (ids : List Nat)
  | fetch (info : MessageInfo)
  | other (label : String)

/-- Go `rsp.SearchResults()`: the identifiers of a SEARCH response, `nil` for
any other response. -/
def Response.SearchResults : Response → List Nat
  | .search ids => ids
  | _ => []

/-- Go `rsp.MessageInfo()`: the record of a FETCH response, `nil` for any other
response. -/
def Response.MessageInfo : Response → Option MessageInfo
  | .fetch info => some info
  | _ => none

/-- Go `imap.Command` after it was issued: the untagged data it collected and
the error `cmd.Result(imap.OK)` reports (`none` when the server answered
OK). -/
structure IssuedCommand where
  Data : List Response
  result : Option Error

/-- The calls `reader.go` makes on `imap.Client`. -/
inductive Command where
  | Select (mailbox : String) (readOnly : Bool)
  | Close (expunge : Bool)
  | UIDSearch (spec : List Field)
  | UIDFetch (seq : Option SeqSet) (items : List String)
  | UIDStore (seq : Option SeqSet) (item : String) (value : List String)
deriving DecidableEq, Repr

/-- The transport: a state `σ`, the answer to each call (an error when the
command could not be issued, else the issued command) and `client.Quote`. -/
structure Client (σ : Type) where
  send : σ → Command → Except Error IssuedCommand × σ
  Quote : Field → Field

/-- One call into the transport together with its answer. -/
structure Event where
  cmd : Command
  res : Except Error IssuedCommand

/-! ## Data of `reader.go` -/

/-- Go `Options` of `reader.go`. -/
structure Options where
  Addr : String
  Username : String
  Password : String
  TLS : Bool
  Timeout : Nat
  MarkSeen : Bool
deriving DecidableEq, Repr

/-- Go `mail.Header`: the header fields in the order they were read.  A field
name read twice appears twice; this is the Go map from name to the list of
its values. -/
abbrev Header := List (Bytes × Bytes)

/-- Go `Email` of `reader.go`. -/
structure Email where
  Flags : List String
  Header : Header
  Body : Bytes
deriving DecidableEq, Repr

/-- Go `reader` of `reader.go`: the options, the transport state behind
`client`, and the trace of the calls made so far. -/
structure reader (σ : Type) where
  opts : Options
  client : σ
  trace : List Event

/-! ## Message framing (`net/mail`) -/

/-- Space or horizontal tab. -/
def isBlank (c : Char) : Bool := c == ' ' || c == '\t'

/-- The bytes of a token (`validHeaderFieldByte` of `net/textproto`): letters,
digits and the marks of RFC 7230. -/
def isTokenByte (c : Char) : Bool :=
  c.isAlphanum ||
    ['!', '#', '$', '%', '&', '\x27', '*', '+', '-', '.', '^', '_', '\x60', '|', '~'].contains c

/-- The loop of `canonicalMIMEHeaderKey`: a letter is made upper case at the
start and after a dash, lower case elsewhere. -/
def canonLoop : Bool → Bytes → Bytes
  | _, [] => []
  | upper, c :: rest =>
    let c2 := if upper && c.isLower then c.toUpper
      else if !upper && c.isUpper then c.toLower else c
    c2 :: canonLoop (c2 == '-') rest

/-- Go `textproto.CanonicalMIMEHeaderKey`: a name made of token bytes is put in
canonical spelling, any other name is returned as it is. -/
def CanonicalMIMEHeaderKey (s : Bytes) : Bytes :=
  if s.all isTokenByte then canonLoop true s else s

/-- Go `Header.Get(key)`: the first value stored under the canonical spelling
of the key, `""` when there is none. -/
def Header.Get (h : Header) (key : Bytes) : Bytes :=
  match h.lookup (CanonicalMIMEHeaderKey key) with
  | some v => v
  | none => []

/-- Drop one trailing carriage return, the `\r` of a CRLF line end. -/
def stripCR (line : Bytes) : Bytes :=
  if line.getLast? = some '\r' then line.dropLast else line

/-- Split a logical line at its first colon. -/
def splitColon : Bytes → Option (Bytes × Bytes)
  | [] => none
  | c :: rest =>
    if c = ':' then some ([], rest)
    else
      match splitColon rest with
      | none => none
      | some (k, v) => some (c :: k, v)

/-- Go `trim` of `net/textproto`: blanks removed at both ends. -/
def trim (s : Bytes) : Bytes :=
  ((s.dropWhile isBlank).reverse.dropWhile isBlank).reverse

/-- The physical lines of the header block, without their line ends, up to the
first empty line, and the bytes after that line; `none` when the input ends
before an empty line.  `cur` is the part of the current line read so far. -/
def readLines : Bytes → Bytes → List Bytes × Option Bytes
  | cur, [] => (if cur = [] then [] else [cur], none)
  | cur, c :: rest =>
    if c = '\n' then
      if stripCR cur = [] then ([], some rest)
      else (stripCR cur :: (readLines [] rest).1, (readLines [] rest).2)
    else readLines (cur ++ [c]) rest

/-- Whether a physical line starts with a blank: a continuation line. -/
def startsBlank (l : Bytes) : Bool := l.head?.any isBlank

/-- The logical lines (`ReadContinuedLine`): a line is trimmed, and every
continuation line that follows it is trimmed and appended after one space. -/
def joinLines : List Bytes → List Bytes
  | [] => []
  | l :: ls =>
    match ls.head?.any startsBlank, joinLines ls with
    | true, j :: js => (trim l ++ ' ' :: j) :: js
    | _, js => trim l :: js

/-- One logical line: the name before the first colon, in canonical spelling,
and the value after it without its leading blanks; a line without a colon is
malformed, a line with an empty name is skipped. -/
def parseLine (kv : Bytes) : Except Error (Option (Bytes × Bytes)) :=
  match splitColon kv with
  | none => .error "malformed MIME header line"
  | some (k, v) =>
    if CanonicalMIMEHeaderKey k = [] then .ok none
    else .ok (some (CanonicalMIMEHeaderKey k, v.dropWhile isBlank))

/-- The header fields of the logical lines, in order. -/
def parseLines : List Bytes → Except Error Header
  | [] => .ok []
  | kv :: rest =>
    match parseLine kv with
    | .error e => .error e
    | .ok f =>
      match parseLines rest with
      | .error e => .error e
      | .ok h => .ok (f.toList ++ h)

/-- Go `mail.Message`: the header and the unread remainder of the input. -/
structure Message where
  Header : Header
  Body : Bytes
deriving DecidableEq, Repr

/-- Modelled from the spec: `mail.ReadMessage` of the Go standard library
(package `net/mail`, not part of the repository), which `newEmail` calls.
The spec says the payload is parsed "as a structured mail message (header
block + body per standard mail message framing: header lines terminated by a
blank line, remainder is body)".  Lines end in LF or CRLF; the first line
must not start with a blank; a line that starts with a blank continues the
line before it; a logical line is `name ":" value`, stored under the
canonical spelling of the name with the blanks before the value dropped; a
logical line without a colon is an error; the bytes after the first empty
line are the body.  Input that ends before an empty line is accepted when it
has a header field, with an empty body. -/
def ReadMessage (buf : Bytes) : Except Error Message :=
  if startsBlank buf then .error "malformed initial line"
  else
    match parseLines (joinLines (readLines [] buf).1) with
    | .error e => .error e
    | .ok h =>
      match (readLines [] buf).2 with
      | some body => .ok ⟨h, body⟩
      | none => if h = [] then .error "EOF" else .ok ⟨h, []⟩

/-- Go `ioutil.ReadAll(msg.Body)`: the body reader is the in-memory remainder of
the buffer, so everything is read and no error occurs. -/
def ReadAll (body : Bytes) : Bytes × Option Error := (body, none)

/-! ## `reader.go` -/

/-- Go `SearchUnseen` of `reader.go`. -/
def SearchUnseen : List Field := [.str "UNSEEN"]
/-- Go `SearchAll` of `reader.go`. -/
def SearchAll : List Field := [.str "ALL"]
/-- Go `SearchAnswered` of `reader.go`. -/
def SearchAnswered : List Field := [.str "ANSWERED"]
/-- Go `SearchUnanswered` of `reader.go`. -/
def SearchUnanswered : List Field := [.str "UNANSWERED"]
/-- Go `SearchDeleted` of `reader.go`. -/
def SearchDeleted : List Field := [.str "DELETED"]
/-- Go `SearchUndeleted` of `reader.go`. -/
def SearchUndeleted : List Field := [.str "UNDELETED"]
/-- Go `SearchFlagged` of `reader.go`. -/
def SearchFlagged : List Field := [.str "FLAGGED"]
/-- Go `SearchUnflagged` of `reader.go`. -/
def SearchUnflagged : List Field := [.str "UNFLAGGED"]
/-- Go `SearchNew` of `reader.go`. -/
def SearchNew : List Field := [.str "NEW"]
/-- Go `SearchOld` of `reader.go`. -/
def SearchOld : List Field := [.str "OLD"]
/-- Go `SearchRecent` of `reader.go`. -/
def SearchRecent : List Field := [.str "RECENT"]
/-- Go `SearchSeen` of `reader.go`. -/
def SearchSeen : List Field := [.str "SEEN"]

/-- Go `BySubject` of `reader.go`. -/
def BySubject (subject : String) : List Field := [.str "SUBJECT", .str subject]

/-- Go `ByFrom` of `reader.go`. -/
def ByFrom («from» : String) : List Field := [.str "FROM", .str «from»]

/-- A call `r.client.X(...)`: the transport answers, its state advances and
the call is appended to the trace. -/
def reader.call {σ : Type} (c : Client σ) (r : reader σ) (cmd : Command) :
    Except Error IssuedCommand × reader σ :=
  let out := c.send r.client cmd
  (out.1, { r with client := out.2, trace := r.trace ++ [⟨cmd, out.1⟩] })

/-- Go `reader.exec`: the error of the call if the command could not be issued,
else the error of `cmd.Result(imap.OK)`, else the command.  The `*Response`
it also returns is dropped by every caller. -/
def reader.exec (res : Except Error IssuedCommand) : Except Error IssuedCommand :=
  match res with
  | .error err => .error err
  | .ok cmd =>
    match cmd.result with
    | some err => .error err
    | none => .ok cmd

/-- Go `reader.mailbox`. -/
def reader.mailbox {σ : Type} (c : Client σ) (r : reader σ) (mailbox : String)
    (readOnly : Bool) : Option Error × reader σ :=
  let out := r.call c (.Select mailbox readOnly)
  match reader.exec out.1 with
  | .error err => (some err, out.2)
  | .ok _ => (none, out.2)

/-- Go `reader.closeMailbox`. -/
def reader.closeMailbox {σ : Type} (c : Client σ) (r : reader σ) :
    Option Error × reader σ :=
  let out := r.call c (.Close false)
  match reader.exec out.1 with
  | .error err => (some err, out.2)
  | .ok _ => (none, out.2)

/-- The loop of `reader.search`,
`for i, p := range params[1:] { params[i+1] = r.client.Quote(p) }`:
iteration `i` reads element `i` of the slice `params[1:]`, which shares its
array with `params`, and writes element `i+1` of `params`. -/
def quoteLoop (Quote : Field → Field) (params : List Field) : List Field :=
  (List.range (params.drop 1).length).foldl
    (fun ps i =>
      match (ps.drop 1)[i]? with
      | some p => ps.set (i + 1) (Quote p)
      | none => ps)
    params

/-- The criteria as `reader.search` leaves them in the caller's slice, which
is also what it passes to `UIDSearch`. -/
def quoteParams (Quote : Field → Field) (params : List Field) : List Field :=
  if params.length > 1 then quoteLoop Quote params else params

/-- Go `reader.search`.  The third component is the content of the caller's
`params` slice when `search` is done: the loop writes into it. -/
def reader.search {σ : Type} (c : Client σ) (r : reader σ) (params : List Field) :
    Run (Option SeqSet × Option Error) × reader σ × List Field :=
  let params := quoteParams c.Quote params
  let out := r.call c (.UIDSearch params)
  match reader.exec out.1 with
  | .error err => (.ret (none, some err), out.2, params)
  | .ok cmd =>
    let set := NewSeqSet
    match cmd.Data with
    | [] => (.panic "index out of range", out.2, params)
    | d :: _ =>
      let results := d.SearchResults
      if results.length = 0 then (.ret (none, none), out.2, params)
      else (.ret (some (set.AddNum results), none), out.2, params)

/-- Go `newEmail`.  A response that is no FETCH record has a `nil`
`MessageInfo`, and a `BODY[]` attribute that is absent or no literal fails
the type assertion: both panic. -/
def newEmail (resp : Response) : Run (Except Error Email) :=
  match resp.MessageInfo with
  | none => .panic "nil pointer dereference"
  | some info =>
    match info.Attrs.lookup "BODY[]" with
    | some (.literal lit) =>
      let w := lit.WriteTo []
      match w.2 with
      | some err => .ret (.error err)
      | none =>
        match ReadMessage w.1 with
        | .error err => .ret (.error err)
        | .ok msg =>
          let flags := info.Flags.keys.foldl (fun flags k => flags ++ [k]) []
          let rd := ReadAll msg.Body
          match rd.2 with
          | some err => .ret (.error err)
          | none => .ret (.ok { Header := msg.Header, Body := rd.1, Flags := flags })
    | _ => .panic "interface conversion: not imap.Literal"

/-- The loop of `reader.emailsFromResponse`, `emails` being the slice built
so far. -/
def emailsLoop : List Response → List Email → Run (List Email × Option Error)
  | [], emails => .ret (emails, none)
  | d :: data, emails =>
    match newEmail d with
    | .panic msg => .panic msg
    | .ret (.error err) => .ret ([], some err)
    | .ret (.ok email) => emailsLoop data (emails ++ [email])

/-- Go `reader.emailsFromResponse`. -/
def reader.emailsFromResponse (data : List Response) : Run (List Email × Option Error) :=
  emailsLoop data []

/-- Go `reader.fetch`. -/
def reader.fetch {σ : Type} (c : Client σ) (r : reader σ) (set : Option SeqSet) :
    Run (List Email × Option Error) × reader σ :=
  match set with
  | none => (.ret ([], none), r)
  | some s =>
    let out := r.call c (.UIDFetch (some s) ["FLAGS", "BODY[]"])
    match reader.exec out.1 with
    | .error err => (.ret ([], some err), out.2)
    | .ok cmd =>
      match reader.emailsFromResponse cmd.Data with
      | .panic msg => (.panic msg, out.2)
      | .ret (_, some err) => (.ret ([], some err), out.2)
      | .ret (emails, none) => (.ret (emails, none), out.2)

/-- Go `reader.markSeen`. -/
def reader.markSeen {σ : Type} (c : Client σ) (r : reader σ) (set : Option SeqSet) :
    Option Error × reader σ :=
  let out := r.call c (.UIDStore set "+FLAGS.SILENT" (NewFlagSet ["\\Seen"]).keys)
  match reader.exec out.1 with
  | .error err => (some err, out.2)
  | .ok _ => (none, out.2)

/-- The part of `reader.List` that follows the fetch, from the close of the
read-only selection on; `reader.List` continues with it once the fetch step
has returned `emails` without an error. -/
def reader.listTail {σ : Type} (c : Client σ) (r3 : reader σ) (mailbox : String)
    (set : Option SeqSet) (emails : List Email) :
    Run (List Email × Option Error) × reader σ :=
  match r3.closeMailbox c with
  | (some err, r4) => (.ret ([], some err), r4)
  | (none, r4) =>
    if r4.opts.MarkSeen && emails.length > 0 then
      match r4.mailbox c mailbox false with
      | (some err, r5) => (.ret ([], some err), r5)
      | (none, r5) =>
        match r5.markSeen c set with
        | (some err, r6) => (.ret ([], some err), r6)
        | (none, r6) =>
          match r6.closeMailbox c with
          | (some err, r7) => (.ret ([], some err), r7)
          | (none, r7) => (.ret (emails, none), r7)
    else (.ret (emails, none), r4)

/-- The search command `reader.search` issues for the criteria `p`. -/
def searchCmd {σ : Type} (c : Client σ) (p : List Field) : Command :=
  .UIDSearch (quoteParams c.Quote p)

/-- The fetch command `reader.fetch` issues for the set `S`. -/
def fetchCmd (S : SeqSet) : Command := .UIDFetch (some S) ["FLAGS", "BODY[]"]

/-- The store command `reader.markSeen` issues for the set `set`. -/
def storeCmd (set : Option SeqSet) : Command := .UIDStore set "+FLAGS.SILENT" ["\\Seen"]

/-- The event of a call made by the reader `r`. -/
def reader.event {σ : Type} (c : Client σ) (r : reader σ) (cmd : Command) : Event :=
  ⟨cmd, (c.send r.client cmd).1⟩

/-- The reader after a call. -/
def reader.next {σ : Type} (c : Client σ) (r : reader σ) (cmd : Command) : reader σ :=
  (r.call c cmd).2

/-- Go `reader.List`.  The result is what the call returns (or a panic), the
reader afterwards, and the content of the caller's `params` slice
afterwards. -/
def reader.List {σ : Type} (c : Client σ) (r : reader σ) (mailbox : String)
    (params : List Field) : Run (List Email × Option Error) × reader σ × List Field :=
  match r.mailbox c mailbox true with
  | (some err, r1) => (.ret ([], some err), r1, params)
  | (none, r1) =>
    match r1.search c params with
    | (.panic msg, r2, params) => (.panic msg, r2, params)
    | (.ret (_, some err), r2, params) => (.ret ([], some err), r2, params)
    | (.ret (set, none), r2, params) =>
      match r2.fetch c set with
      | (.panic msg, r3) => (.panic msg, r3, params)
      | (.ret (_, some err), r3) => (.ret ([], some err), r3, params)
      | (.ret (emails, none), r3) =>
        match r3.closeMailbox c with
        | (some err, r4) => (.ret ([], some err), r4, params)
        | (none, r4) =>
          if r4.opts.MarkSeen && emails.length > 0 then
            match r4.mailbox c mailbox false with
            | (some err, r5) => (.ret ([], some err), r5, params)
            | (none, r5) =>
              match r5.markSeen c set with
              | (some err, r6) => (.ret ([], some err), r6, params)
              | (none, r6) =>
                match r6.closeMailbox c with
                | (some err, r7) => (.ret ([], some err), r7, params)
                | (none, r7) => (.ret (emails, none), r7, params)
          else (.ret (emails, none), r4, params)

/-! ## A scripted transport -/

/-- A transport that answers the calls with a fixed list of answers, in
order, and refuses any call after the list is used up. -/
def scripted (Quote : Field → Field) : Client (List (Except Error IssuedCommand)) where
  send := fun s _ =>
    match s with
    | [] => (.error "no answer left", [])
    | a :: rest => (a, rest)
  Quote := Quote

/-- The answer of a command the server completed with OK. -/
def okWith (data : List Response) : Except Error IssuedCommand := .ok ⟨data, none⟩

/-- The answer of a command the server completed with NO or BAD. -/
def notOK (err : Error) : Except Error IssuedCommand := .ok ⟨[], some err⟩

/-- The commands of a trace. -/
def commands (t : List Event) : List Command := t.map Event.cmd

/-- The error with which the call of an event failed, as `reader.exec` sees
it: the command could not be issued, or the server did not answer OK. -/
def Event.error (e : Event) : Option Error :=
  match reader.exec e.res with
  | .error err => some err
  | .ok _ => none

/-- Whether every call of a trace succeeded. -/
def allSucceeded (t : List Event) : Bool := t.all (fun e => e.error.isNone)

/-- The events a reader added to its trace between `r` and `r2`. -/
def issued {σ : Type} (r r2 : reader σ) : List Event := r2.trace.drop r.trace.length

/-- The identifiers the first response of the first search answer of a trace
reports (what `cmd.Data[0].SearchResults()` reads); `none` when the trace has
no answered search or the answer carries no response. -/
def searchReport : List Event → Option (List Nat)
  | [] => none
  | e :: t =>
    match e.cmd, e.res with
    | .UIDSearch _, .ok cmd =>
      match cmd.Data with
      | [] => none
      | d :: _ => some d.SearchResults
    | _, _ => searchReport t

/-- The records of the first fetch answer of a trace, `[]` when the trace has
no answered fetch. -/
def fetchedRecords : List Event → List Response
  | [] => []
  | e :: t =>
    match e.cmd, e.res with
    | .UIDFetch _ _, .ok cmd => cmd.Data
    | _, _ => fetchedRecords t

/-- The criteria in the spec's words: the first token as given, every token
after it quoted. -/
def quoteTail (Quote : Field → Field) : List Field → List Field
  | [] => []
  | p :: rest => p :: rest.map Quote

/-- A byte that may stand in a quoted string: no CR, LF or NUL, and
7-bit. -/
def quotable (c : Char) : Bool :=
  c != '\r' && c != '\n' && c != '\x00' && decide (c.toNat < 128)

/-- The bytes of a quoted string: a backslash is put before every double
quote and backslash. -/
def escapeQuoted : Bytes → Bytes
  | [] => []
  | c :: cs =>
    if c = '\x22' ∨ c = '\x5c' then '\x5c' :: c :: escapeQuoted cs
    else c :: escapeQuoted cs

/-- Modelled from the spec: `Client.Quote` of go-imap (not part of the
repository), the quoting "according to the protocol's string-literal quoting
rules": a string becomes a quoted string, its double quotes and backslashes
escaped, or a literal when it holds a byte that cannot be quoted; a value that
is no string becomes `nil`. -/
def quoteWrap : Field → Field
  | .str s =>
    if s.data.all quotable then .str (String.mk ('\x22' :: escapeQuoted s.data ++ ['\x22']))
    else .literal ⟨s.data, none⟩
  | _ => .nil

/-! ## Mailbox state -/

/-- Modelled from the spec: the Mailbox State of the session, "an implicit
state machine held by the Session", which `reader.go` itself holds nowhere. -/
inductive MailboxState where
  | Unselected
  | SelectedReadOnly
  | SelectedReadWrite
deriving DecidableEq, Repr

/-- What a failed command does to the mailbox state where the spec does not
say: the state after a close that failed, and the state after a select that
failed while a mailbox was selected.  The statements below hold for every
choice. -/
structure FailureEffects where
  close : MailboxState → MailboxState
  select : MailboxState → MailboxState

/-- Failed commands leave the state as it is. -/
def effectsKeep : FailureEffects := ⟨fun s => s, fun s => s⟩

/-- Failed commands leave no mailbox selected. -/
def effectsDrop : FailureEffects := ⟨fun _ => .Unselected, fun _ => .Unselected⟩

/-- Modelled from the spec: the mailbox state after a call.  A select that
succeeds enters the selected state of its mode, a close that succeeds returns
to `Unselected`, and "selecting a nonexistent mailbox ... leaves Mailbox State
at `Unselected`"; the other effects of a failed select or close are those of
`fx`.  A search, fetch or store does not change the state. -/
def MailboxState.step (fx : FailureEffects) (s : MailboxState) (e : Event) : MailboxState :=
  match e.cmd with
  | .Select _ readOnly =>
    if e.error.isNone then
      (if readOnly then .SelectedReadOnly else .SelectedReadWrite)
    else if s = .Unselected then .Unselected else fx.select s
  | .Close _ => if e.error.isNone then .Unselected else fx.close s
  | _ => s

/-- The mailbox state after a trace. -/
def MailboxState.after (fx : FailureEffects) (s : MailboxState) (t : List Event) :
    MailboxState :=
  t.foldl (MailboxState.step fx) s

/-- Modelled from the spec: select "must precede search/fetch/store", and a
store needs the writable selection. -/
def MailboxState.allows (s : MailboxState) : Command → Bool
  | .UIDSearch _ => decide (s ≠ .Unselected)
  | .UIDFetch _ _ => decide (s ≠ .Unselected)
  | .UIDStore _ _ _ => decide (s = .SelectedReadWrite)
  | _ => true

/-- Every command of the trace is issued in a state that allows it. -/
def wellSequenced (fx : FailureEffects) : MailboxState → List Event → Bool
  | _, [] => true
  | s, e :: t => s.allows e.cmd && wellSequenced fx (s.step fx e) t

/-! ## Well-formed messages -/

/-- A printable byte of a header value: visible ASCII, space or tab. -/
def isTextByte (c : Char) : Bool := (decide (32 ≤ c.toNat) && decide (c.toNat ≤ 126)) || c == '\t'

/-- One physical line of a header value: blanks, the text, blanks. -/
structure Segment where
  lead : Bytes
  text : Bytes
  trail : Bytes
deriving DecidableEq, Repr

/-- A header field as written: its name, the line that carries the name, and
the continuation lines of a folded value. -/
structure FieldLines where
  name : Bytes
  first : Segment
  more : List Segment
deriving DecidableEq, Repr

/-- A well-formed value line: blanks around a printable text that neither
starts nor ends with a blank. -/
def Segment.wellFormed (p : Segment) : Bool :=
  p.lead.all isBlank && p.trail.all isBlank && p.text.all isTextByte
    && !p.text.head?.any isBlank && !p.text.getLast?.any isBlank

/-- A well-formed header field: the name is a non-empty token, every line is
well formed, and every continuation line starts with a blank. -/
def FieldLines.wellFormed (f : FieldLines) : Bool :=
  !f.name.isEmpty && f.name.all isTokenByte && f.first.wellFormed
    && f.more.all (fun p => p.wellFormed && !p.lead.isEmpty)

/-- The content of a value line. -/
def Segment.line (p : Segment) : Bytes := p.lead ++ p.text ++ p.trail

/-- Value lines, each ended by CRLF. -/
def encodeSegments : List Segment → Bytes
  | [] => []
  | p :: ps => p.line ++ ['\r', '\n'] ++ encodeSegments ps

/-- The lines of a header field, each ended by CRLF. -/
def FieldLines.encode (f : FieldLines) : Bytes :=
  f.name ++ ':' :: encodeSegments (f.first :: f.more)

/-- The texts of continuation lines, each after one space. -/
def unfoldText : List Segment → Bytes
  | [] => []
  | p :: ps => ' ' :: p.text ++ unfoldText ps

/-- The value of a header field: the texts of its lines joined by single
spaces, without leading blanks. -/
def FieldLines.value (f : FieldLines) : Bytes :=
  (f.first.text ++ unfoldText f.more).dropWhile isBlank

/-- The header lines of a list of fields. -/
def encodeFields : List FieldLines → Bytes
  | [] => []
  | f :: fs => f.encode ++ encodeFields fs

/-- A message: the header lines, a blank line, the body. -/
def encodeMessage (fields : List FieldLines) (body : Bytes) : Bytes :=
  encodeFields fields ++ ['\r', '\n'] ++ body

/-- The value `Get` is to return for a name: that of the first field whose
name has the same canonical spelling, empty when there is none. -/
def firstValue (fields : List FieldLines) (key : Bytes) : Bytes :=
  match fields.find? (fun f => CanonicalMIMEHeaderKey key == CanonicalMIMEHeaderKey f.name) with
  | some f => f.value
  | none => []

/-- The physical lines of a header field. -/
def FieldLines.lines (f : FieldLines) : List Bytes :=
  (f.name ++ ':' :: f.first.line) :: f.more.map Segment.line

/-- The physical lines of a list of header fields. -/
def physicalLines : List FieldLines → List Bytes
  | [] => []
  | f :: fs => f.lines ++ physicalLines fs

/-- Blanks removed at the end. -/
def dropTrail (l : Bytes) : Bytes := (l.reverse.dropWhile isBlank).reverse

/-- The logical line of a header field. -/
def FieldLines.logical (f : FieldLines) : Bytes :=
  trim (f.name ++ ':' :: f.first.line) ++ unfoldText f.more

/-- The header fields of the message of `reader_test.go`. -/
def testFields : List FieldLines :=
  [⟨"Subject".toList, ⟨[' '], "Fancy ponies".toList, []⟩, []⟩,
    ⟨"From".toList, ⟨[' '], "Fancy pony <fancy@ponies.org>".toList, []⟩, []⟩]

/-- One header field written on two lines, the second ending in a blank. -/
def foldedSubject : List FieldLines :=
  [⟨"Subject".toList, ⟨[' '], "Fancy".toList, []⟩, [⟨[' '], "ponies".toList, [' ']⟩]⟩]

/-- Two header fields whose names differ in case only. -/
def twoSubjects : List FieldLines :=
  [⟨"subject".toList, ⟨[' '], "1".toList, []⟩, []⟩,
    ⟨"Subject".toList, ⟨[' '], "2".toList, []⟩, []⟩]

/-- The message of `reader_test.go`. -/
def Msg : Bytes :=
  "Subject: Fancy ponies\r\nFrom: Fancy pony <fancy@ponies.org>\r\n\r\nHello, ponies\r\n".toList

/-! ## A reference mailbox -/

/-- A message of the reference mailbox. -/
structure RefMessage where
  UID : Nat
  Flags : List String
  Text : Bytes
deriving DecidableEq, Repr

/-- The reference server: one mailbox, its messages and the selection
state of the session. -/
structure RefServer where
  name : String
  messages : List RefMessage
  state : MailboxState
deriving DecidableEq, Repr

/-- Whether a message lacks the `\Seen` flag. -/
def RefMessage.unseen (m : RefMessage) : Bool := !m.Flags.contains "\\Seen"

/-- The flags of a message after a store `+FLAGS`. -/
def RefMessage.addFlags (m : RefMessage) (flags : List String) : RefMessage :=
  { m with Flags := m.Flags ++ flags.filter (fun f => !m.Flags.contains f) }

/-- The FETCH record of a message for the items `FLAGS` and `BODY[]`. -/
def RefMessage.record (m : RefMessage) : Response :=
  .fetch ⟨[("UID", .num m.UID), ("BODY[]", .literal ⟨m.Text, none⟩)], NewFlagSet m.Flags⟩

/-- The messages after the given flags were added to every message whose UID
is in the set. -/
def RefServer.flagged (s : RefServer) (set : SeqSet) (flags : List String) : List RefMessage :=
  s.messages.map (fun m => if set.nums.contains m.UID then m.addFlags flags else m)

/-- The search keys the reference server understands. -/
def RefServer.matching (s : RefServer) : List Field → Option (List RefMessage)
  | [.str "UNSEEN"] => some (s.messages.filter RefMessage.unseen)
  | [.str "SEEN"] => some (s.messages.filter (fun m => !m.unseen))
  | [.str "ALL"] => some s.messages
  | _ => none

/-- The answers of the reference server.  An UNSEEN search returns the UIDs
lacking `\Seen`; a store `+FLAGS` adds the flags, and needs the writable
selection; a fetch in a read-only selection changes no flags (in a writable
one, fetching `BODY[]` sets `\Seen`). -/
def RefServer.send (s : RefServer) : Command → Except Error IssuedCommand × RefServer
  | .Select mailbox readOnly =>
    if mailbox = s.name then
      (okWith [], { s with state := if readOnly then .SelectedReadOnly else .SelectedReadWrite })
    else (notOK "NO no such mailbox", { s with state := .Unselected })
  | .Close _ =>
    if s.state = .Unselected then (notOK "BAD no mailbox selected", s)
    else (okWith [], { s with state := .Unselected })
  | .UIDSearch spec =>
    if s.state = .Unselected then (notOK "BAD no mailbox selected", s)
    else
      match s.matching spec with
      | some ms => (okWith [.search (ms.map RefMessage.UID)], s)
      | none => (notOK "BAD unknown search key", s)
  | .UIDFetch seq items =>
    match seq with
    | none => (notOK "BAD missing sequence set", s)
    | some set =>
      if s.state = .Unselected then (notOK "BAD no mailbox selected", s)
      else
        let data := (s.messages.filter (fun m => set.nums.contains m.UID)).map RefMessage.record
        if s.state = .SelectedReadWrite && items.contains "BODY[]" then
          (okWith data, { s with messages := s.flagged set ["\\Seen"] })
        else (okWith data, s)
  | .UIDStore seq item value =>
    match seq with
    | none => (notOK "BAD missing sequence set", s)
    | some set =>
      if s.state = .SelectedReadWrite then
        if item = "+FLAGS.SILENT" || item = "+FLAGS" then
          (okWith [], { s with messages := s.flagged set value })
        else (notOK "BAD unknown store item", s)
      else (notOK "NO mailbox is not writable", s)

/-- The reference server as a transport. -/
def refClient : Client RefServer where
  send := RefServer.send
  Quote := quoteWrap

/-- The unseen messages of the reference mailbox. -/
def RefServer.unseen (s : RefServer) : List RefMessage :=
  s.messages.filter RefMessage.unseen

/-- A reader with the given options on a transport in the given state, and an
empty trace. -/
def readerOn {σ : Type} (opts : Options) (client : σ) : reader σ := ⟨opts, client, []⟩

/-- Options that differ only in `MarkSeen`. -/
def optsWith (markSeen : Bool) : Options := ⟨"imap.example.org:993", "user", "secret", true, 60, markSeen⟩

/-- The reference mailbox of the tests: one freshly appended message. -/
def freshMailbox : RefServer := ⟨"MBOX", [⟨1, [], Msg⟩], .Unselected⟩

/-- The email of the message of the tests. -/
def freshEmail : Email :=
  ⟨[], [("Subject".toList, "Fancy ponies".toList),
      ("From".toList, "Fancy pony <fancy@ponies.org>".toList)], "Hello, ponies\r\n".toList⟩

/-- A FETCH record without a `BODY[]` attribute. -/
def bodylessRecord : Response := .fetch ⟨[("UID", .num 4)], NewFlagSet []⟩

/-- A FETCH record whose `BODY[]` is a quoted string, not a literal. -/
def quotedRecord : Response :=
  .fetch ⟨[("UID", .num 4), ("BODY[]", .str "Subject: x\r\n\r\nbody")], NewFlagSet []⟩

/-- A FETCH record whose `BODY[]` literal has a header line without colon. -/
def malformedRecord : Response :=
  .fetch ⟨[("UID", .num 5), ("BODY[]", .literal ⟨"no colon here\r\n\r\nbody".toList, none⟩)],
    NewFlagSet []⟩

/-- A run in which every command succeeds and the one fetched record does
not parse. -/
def parseFails : reader (List (Except Error IssuedCommand)) :=
  readerOn (optsWith true)
    [okWith [], okWith [.search [5]], okWith [malformedRecord], okWith [], okWith [],
      okWith [], okWith []]

/-- A run in which the search finds nothing and the close fails. -/
def closeFails : reader (List (Except Error IssuedCommand)) :=
  readerOn (optsWith true) [okWith [], okWith [.search []], notOK "NO close refused"]

/-- A run in which the search finds nothing and every command succeeds. -/
def noMatch : reader (List (Except Error IssuedCommand)) :=
  readerOn (optsWith true) [okWith [], okWith [.search []], okWith []]

/-- A run in which the search fails. -/
def searchFails : reader (List (Except Error IssuedCommand)) :=
  readerOn (optsWith true) [okWith [], notOK "BAD search refused"]

/-- A run in which the fetch answer carries a record without a `BODY[]`
literal. -/
def fetchWithoutLiteral : reader (List (Except Error IssuedCommand)) :=
  readerOn (optsWith false) [okWith [RefMessage.record ⟨1, [], Msg⟩, quotedRecord]]

/-- Two runs of `List`, one after the other, in each of which the select
succeeds and the search is refused. -/
def twoSearches : reader (List (Except Error IssuedCommand)) :=
  readerOn (optsWith false)
    [okWith [], notOK "BAD search refused", okWith [], notOK "BAD search refused"]

/-- A run in which the store fails after one message was fetched. -/
def storeFails : reader (List (Except Error IssuedCommand)) :=
  readerOn (optsWith true)
    [okWith [], okWith [.search [4]], okWith [(RefMessage.record ⟨4, [], Msg⟩)], okWith [],
      okWith [], notOK "NO store refused"]

/-! # Theorems -/

/-! ## The quoting loop -/

/-- After `n` iterations the loop has quoted the elements `1` to `n` and
kept the rest. -/
theorem quoteLoop_prefix (Q : Field → Field) (p : List Field) (n : Nat)
    (hn : n ≤ (p.drop 1).length) :
    ((List.range n).foldl
      (fun ps i =>
        match (ps.drop 1)[i]? with
        | some x => ps.set (i + 1) (Q x)
        | none => ps) p).length = p.length ∧
    ∀ j, ((List.range n).foldl
      (fun ps i =>
        match (ps.drop 1)[i]? with
        | some x => ps.set (i + 1) (Q x)
        | none => ps) p)[j]? = if 1 ≤ j ∧ j ≤ n then p[j]?.map Q else p[j]? := by
  induction n with
  | zero =>
    refine ⟨by simp, fun j => ?_⟩
    have : ¬ (1 ≤ j ∧ j ≤ 0) := by omega
    rw [if_neg this]
    rfl
  | succ n ih =>
    have hn' : n ≤ (p.drop 1).length := by omega
    obtain ⟨hlen, hget⟩ := ih hn'
    rw [List.range_succ, List.foldl_append]
    simp only [List.foldl_cons, List.foldl_nil]
    have hlt : n + 1 < p.length := by
      simp only [List.length_drop] at hn
      omega
    have hread : ∃ x, p[n + 1]? = some x := ⟨p[n + 1], by simp [hlt]⟩
    obtain ⟨x, hx⟩ := hread
    have hcur := hget (n + 1)
    have hno : ¬ (1 ≤ n + 1 ∧ n + 1 ≤ n) := by omega
    rw [if_neg hno, hx] at hcur
    rw [List.getElem?_drop, Nat.add_comm 1 n, hcur]
    simp only [List.length_set]
    refine ⟨hlen, fun j => ?_⟩
    rw [List.getElem?_set, hlen]
    by_cases hj : n + 1 = j
    · subst hj
      simp [hlt, hx]
    · rw [if_neg hj, hget j]
      by_cases h1 : 1 ≤ j ∧ j ≤ n
      · have h2 : 1 ≤ j ∧ j ≤ n + 1 := by omega
        rw [if_pos h1, if_pos h2]
      · have h2 : ¬ (1 ≤ j ∧ j ≤ n + 1) := by omega
        rw [if_neg h1, if_neg h2]

/-- The loop quotes every token after the first. -/
theorem quoteLoop_eq_quoteTail (Q : Field → Field) (p : List Field) :
    quoteLoop Q p = quoteTail Q p := by
  obtain ⟨hlen, hget⟩ := quoteLoop_prefix Q p (p.drop 1).length (Nat.le_refl _)
  apply List.ext_getElem?
  intro j
  unfold quoteLoop
  rw [hget j]
  cases p with
  | nil => simp [quoteTail]
  | cons a t =>
    cases j with
    | zero => simp [quoteTail]
    | succ k =>
      by_cases hk : k < t.length
      · have : 1 ≤ k + 1 ∧ k + 1 ≤ (List.drop 1 (a :: t)).length := by
          simp; omega
        rw [if_pos this]
        simp [quoteTail]
      · have : ¬ (1 ≤ k + 1 ∧ k + 1 ≤ (List.drop 1 (a :: t)).length) := by
          simp; omega
        rw [if_neg this]
        have hk' : t.length ≤ k := by omega
        have hnone : t[k]? = none := List.getElem?_eq_none hk'
        simp [quoteTail, hnone]

/-- What `search` does to the criteria is what the spec words. -/
theorem quoteParams_eq_quoteTail (Q : Field → Field) (p : List Field) :
    quoteParams Q p = quoteTail Q p := by
  unfold quoteParams
  split
  · exact quoteLoop_eq_quoteTail Q p
  · match p with
    | [] => rfl
    | [a] => rfl
    | a :: b :: t => simp at *

/-! ## Traces -/

/-- A call adds one event to the trace. -/
theorem issued_call {σ : Type} (c : Client σ) (r : reader σ) (cmd : Command) :
    issued r (r.call c cmd).2 = [⟨cmd, (c.send r.client cmd).1⟩] := by
  simp [issued, reader.call]

/-- The trace after a call. -/
theorem next_trace {σ : Type} (c : Client σ) (r : reader σ) (cmd : Command) :
    (r.next c cmd).trace = r.trace ++ [r.event c cmd] := rfl

/-- The options do not change in a call. -/
theorem next_opts {σ : Type} (c : Client σ) (r : reader σ) (cmd : Command) :
    (r.next c cmd).opts = r.opts := rfl

/-- The keys of a new flag set. -/
theorem NewFlagSet_keys (v : List String) : (NewFlagSet v).keys = v.dedup := by
  simp [NewFlagSet, FlagSet.keys, List.map_map, Function.comp_def]

/-- The flag set of `markSeen` holds the one flag `\Seen`. -/
theorem seen_keys : (NewFlagSet ["\\Seen"]).keys = ["\\Seen"] := by
  rw [NewFlagSet_keys]
  rfl

/-- The result of `mailbox` is the error of its one call. -/
theorem mailbox_eq {σ : Type} (c : Client σ) (r : reader σ) (m : String) (ro : Bool) :
    r.mailbox c m ro = ((r.event c (.Select m ro)).error, r.next c (.Select m ro)) := by
  unfold reader.mailbox Event.error reader.event reader.next
  simp only [reader.call]
  split <;> rfl

/-- The result of `closeMailbox` is the error of its one call. -/
theorem closeMailbox_eq {σ : Type} (c : Client σ) (r : reader σ) :
    r.closeMailbox c = ((r.event c (.Close false)).error, r.next c (.Close false)) := by
  unfold reader.closeMailbox Event.error reader.event reader.next
  simp only [reader.call]
  split <;> rfl

/-- The result of `markSeen` is the error of its one call. -/
theorem markSeen_eq {σ : Type} (c : Client σ) (r : reader σ) (set : Option SeqSet) :
    r.markSeen c set =
      ((r.event c (.UIDStore set "+FLAGS.SILENT" ["\\Seen"])).error,
        r.next c (.UIDStore set "+FLAGS.SILENT" ["\\Seen"])) := by
  unfold reader.markSeen Event.error reader.event reader.next
  simp only [reader.call, seen_keys]
  split <;> rfl

/-- The reader and the criteria slice after `search`, whatever the answer. -/
theorem search_snd {σ : Type} (c : Client σ) (r : reader σ) (p : List Field) :
    (r.search c p).2 =
      (r.next c (.UIDSearch (quoteParams c.Quote p)), quoteParams c.Quote p) := by
  unfold reader.search reader.next
  simp only
  split
  · rfl
  · split
    · rfl
    · split <;> rfl

/-- What `search` returns, read off the event of its call. -/
theorem search_fst {σ : Type} (c : Client σ) (r : reader σ) (p : List Field) :
    (r.search c p).1 =
      match (r.event c (.UIDSearch (quoteParams c.Quote p))).error with
      | some err => .ret (none, some err)
      | none =>
        match searchReport [r.event c (.UIDSearch (quoteParams c.Quote p))] with
        | none => .panic "index out of range"
        | some results =>
          if results.length = 0 then .ret (none, none)
          else .ret (some (NewSeqSet.AddNum results), none) := by
  unfold reader.search Event.error reader.event
  simp only [reader.call]
  cases h : (c.send r.client (.UIDSearch (quoteParams c.Quote p))).1 with
  | error e => simp [reader.exec]
  | ok cmd =>
    obtain ⟨D, res⟩ := cmd
    cases res with
    | some e => simp [reader.exec]
    | none =>
      cases D with
      | nil => simp [reader.exec, searchReport]
      | cons d D =>
        simp only [reader.exec, searchReport]
        split <;> simp_all

/-- What `fetch` returns for a set, read off the event of its call. -/
theorem fetch_some {σ : Type} (c : Client σ) (r : reader σ) (S : SeqSet) :
    r.fetch c (some S) =
      (match (r.event c (.UIDFetch (some S) ["FLAGS", "BODY[]"])).error with
        | some err => .ret ([], some err)
        | none =>
          match reader.emailsFromResponse
              (fetchedRecords [r.event c (.UIDFetch (some S) ["FLAGS", "BODY[]"])]) with
          | .panic msg => .panic msg
          | .ret (_, some err) => .ret ([], some err)
          | .ret (emails, none) => .ret (emails, none),
        r.next c (.UIDFetch (some S) ["FLAGS", "BODY[]"])) := by
  unfold reader.fetch Event.error reader.event reader.next
  simp only [reader.call]
  cases h : (c.send r.client (.UIDFetch (some S) ["FLAGS", "BODY[]"])).1 with
  | error e => simp [reader.exec]
  | ok cmd =>
    obtain ⟨D, res⟩ := cmd
    cases res with
    | some e => simp [reader.exec]
    | none =>
      simp only [reader.exec, fetchedRecords]
      split <;> simp_all

/-- The `search` step as a triple. -/
theorem search_eq {σ : Type} (c : Client σ) (r : reader σ) (p : List Field) :
    r.search c p =
      ((r.search c p).1, r.next c (.UIDSearch (quoteParams c.Quote p)), quoteParams c.Quote p) := by
  have h := search_snd c r p
  rw [← h]


/-! ## The paths of `List` -/

/-- The code of `List` after the fetch is `listTail`. -/
theorem List_tail {σ : Type} (c : Client σ) (r3 : reader σ) (m : String) (set : Option SeqSet)
    (emails : List Email) (params : List Field) :
    (match r3.closeMailbox c with
      | (some err, r4) => ((.ret ([], some err), r4, params) :
          Run (List Email × Option Error) × reader σ × List Field)
      | (none, r4) =>
        if r4.opts.MarkSeen && emails.length > 0 then
          match r4.mailbox c m false with
          | (some err, r5) => (.ret ([], some err), r5, params)
          | (none, r5) =>
            match r5.markSeen c set with
            | (some err, r6) => (.ret ([], some err), r6, params)
            | (none, r6) =>
              match r6.closeMailbox c with
              | (some err, r7) => (.ret ([], some err), r7, params)
              | (none, r7) => (.ret (emails, none), r7, params)
        else (.ret (emails, none), r4, params)) =
      ((r3.listTail c m set emails).1, (r3.listTail c m set emails).2, params) := by
  unfold reader.listTail
  simp only [closeMailbox_eq, mailbox_eq, markSeen_eq]
  cases (r3.event c (.Close false)).error with
  | some e => rfl
  | none =>
    simp only
    split
    · cases ((r3.next c (.Close false)).event c (.Select m false)).error with
      | some e => rfl
      | none =>
        simp only
        cases (((r3.next c (.Close false)).next c (.Select m false)).event c
            (.UIDStore set "+FLAGS.SILENT" ["\\Seen"])).error with
        | some e => rfl
        | none =>
          simp only
          cases ((((r3.next c (.Close false)).next c (.Select m false)).next c
            (.UIDStore set "+FLAGS.SILENT" ["\\Seen"])).event c (.Close false)).error with
          | some e => rfl
          | none => rfl
    · rfl


/-- Case analysis of `listTail`: a property holds of its result if it holds on
each of its six paths. -/
theorem listTail_elim {σ : Type} (c : Client σ) (r3 : reader σ) (m : String) (set : Option SeqSet)
    (emails : List Email) (P : Run (List Email × Option Error) × reader σ → Prop)
    (r4 r5 r6 r7 : reader σ)
    (hr4 : r4 = r3.next c (.Close false)) (hr5 : r5 = r4.next c (.Select m false))
    (hr6 : r6 = r5.next c (storeCmd set)) (hr7 : r7 = r6.next c (.Close false))
    (B1 : ∀ err, (r3.event c (.Close false)).error = some err → P (.ret ([], some err), r4))
    (B2 : (r3.event c (.Close false)).error = none →
      (r3.opts.MarkSeen && decide (emails.length > 0)) = false → P (.ret (emails, none), r4))
    (B3 : ∀ err, (r3.event c (.Close false)).error = none →
      (r3.opts.MarkSeen && decide (emails.length > 0)) = true →
      (r4.event c (.Select m false)).error = some err → P (.ret ([], some err), r5))
    (B4 : ∀ err, (r3.event c (.Close false)).error = none →
      (r3.opts.MarkSeen && decide (emails.length > 0)) = true →
      (r4.event c (.Select m false)).error = none →
      (r5.event c (storeCmd set)).error = some err → P (.ret ([], some err), r6))
    (B5 : ∀ err, (r3.event c (.Close false)).error = none →
      (r3.opts.MarkSeen && decide (emails.length > 0)) = true →
      (r4.event c (.Select m false)).error = none →
      (r5.event c (storeCmd set)).error = none →
      (r6.event c (.Close false)).error = some err → P (.ret ([], some err), r7))
    (B6 : (r3.event c (.Close false)).error = none →
      (r3.opts.MarkSeen && decide (emails.length > 0)) = true →
      (r4.event c (.Select m false)).error = none →
      (r5.event c (storeCmd set)).error = none →
      (r6.event c (.Close false)).error = none → P (.ret (emails, none), r7)) :
    P (r3.listTail c m set emails) := by
  subst hr4 hr5 hr6 hr7
  unfold reader.listTail
  simp only [closeMailbox_eq, mailbox_eq, markSeen_eq, next_opts]
  unfold storeCmd at *
  cases h4 : (r3.event c (.Close false)).error with
  | some e => exact B1 e h4
  | none =>
    simp only [next_opts]
    by_cases hm : (r3.opts.MarkSeen && decide (emails.length > 0)) = true
    · rw [if_pos hm]
      cases h5 : ((r3.next c (.Close false)).event c (.Select m false)).error with
      | some e => exact B3 e h4 hm h5
      | none =>
        simp only
        cases h6 : (((r3.next c (.Close false)).next c (.Select m false)).event c
            (.UIDStore set "+FLAGS.SILENT" ["\\Seen"])).error with
        | some e => exact B4 e h4 hm h5 h6
        | none =>
          simp only
          cases h7 : ((((r3.next c (.Close false)).next c (.Select m false)).next c
            (.UIDStore set "+FLAGS.SILENT" ["\\Seen"])).event c (.Close false)).error with
          | some e => exact B5 e h4 hm h5 h6 h7
          | none => exact B6 h4 hm h5 h6 h7
    · rw [if_neg hm]
      exact B2 h4 (Bool.eq_false_iff.mpr hm)

/-- Case analysis of `List`: a property holds of its result if it holds on
each path through select, search and fetch, the last two continuing with
`listTail`. -/
theorem List_elim {σ : Type} (c : Client σ) (r : reader σ) (m : String) (p : List Field)
    (P : Run (List Email × Option Error) × reader σ × List Field → Prop)
    (r1 r2 : reader σ)
    (hr1 : r1 = r.next c (.Select m true)) (hr2 : r2 = r1.next c (searchCmd c p))
    (A1 : ∀ err, (r.event c (.Select m true)).error = some err → P (.ret ([], some err), r1, p))
    (A2 : ∀ err, (r.event c (.Select m true)).error = none →
      (r1.event c (searchCmd c p)).error = some err →
      P (.ret ([], some err), r2, quoteParams c.Quote p))
    (A3 : (r.event c (.Select m true)).error = none →
      (r1.event c (searchCmd c p)).error = none →
      searchReport [r1.event c (searchCmd c p)] = none →
      P (.panic "index out of range", r2, quoteParams c.Quote p))
    (A4 : (r.event c (.Select m true)).error = none →
      (r1.event c (searchCmd c p)).error = none →
      searchReport [r1.event c (searchCmd c p)] = some [] →
      P ((r2.listTail c m none []).1, (r2.listTail c m none []).2, quoteParams c.Quote p))
    (A5 : ∀ results err, (r.event c (.Select m true)).error = none →
      (r1.event c (searchCmd c p)).error = none →
      searchReport [r1.event c (searchCmd c p)] = some results → results ≠ [] →
      (r2.event c (fetchCmd (NewSeqSet.AddNum results))).error = some err →
      P (.ret ([], some err), r2.next c (fetchCmd (NewSeqSet.AddNum results)),
        quoteParams c.Quote p))
    (A6 : ∀ results msg, (r.event c (.Select m true)).error = none →
      (r1.event c (searchCmd c p)).error = none →
      searchReport [r1.event c (searchCmd c p)] = some results → results ≠ [] →
      (r2.event c (fetchCmd (NewSeqSet.AddNum results))).error = none →
      reader.emailsFromResponse
        (fetchedRecords [r2.event c (fetchCmd (NewSeqSet.AddNum results))]) = .panic msg →
      P (.panic msg, r2.next c (fetchCmd (NewSeqSet.AddNum results)), quoteParams c.Quote p))
    (A7 : ∀ results part err, (r.event c (.Select m true)).error = none →
      (r1.event c (searchCmd c p)).error = none →
      searchReport [r1.event c (searchCmd c p)] = some results → results ≠ [] →
      (r2.event c (fetchCmd (NewSeqSet.AddNum results))).error = none →
      reader.emailsFromResponse
        (fetchedRecords [r2.event c (fetchCmd (NewSeqSet.AddNum results))]) =
          .ret (part, some err) →
      P (.ret ([], some err), r2.next c (fetchCmd (NewSeqSet.AddNum results)),
        quoteParams c.Quote p))
    (A8 : ∀ results emails, (r.event c (.Select m true)).error = none →
      (r1.event c (searchCmd c p)).error = none →
      searchReport [r1.event c (searchCmd c p)] = some results → results ≠ [] →
      (r2.event c (fetchCmd (NewSeqSet.AddNum results))).error = none →
      reader.emailsFromResponse
        (fetchedRecords [r2.event c (fetchCmd (NewSeqSet.AddNum results))]) =
          .ret (emails, none) →
      P (((r2.next c (fetchCmd (NewSeqSet.AddNum results))).listTail c m
            (some (NewSeqSet.AddNum results)) emails).1,
          ((r2.next c (fetchCmd (NewSeqSet.AddNum results))).listTail c m
            (some (NewSeqSet.AddNum results)) emails).2,
          quoteParams c.Quote p)) :
    P (reader.List c r m p) := by
  subst hr1 hr2
  unfold searchCmd fetchCmd at *
  unfold reader.List
  rw [mailbox_eq]
  cases h1 : (r.event c (.Select m true)).error with
  | some e => exact A1 e h1
  | none =>
    simp only
    rw [search_eq, search_fst]
    cases h2 : ((r.next c (.Select m true)).event c (.UIDSearch (quoteParams c.Quote p))).error with
    | some e => exact A2 e h1 h2
    | none =>
      simp only
      cases h3 : searchReport
          [(r.next c (.Select m true)).event c (.UIDSearch (quoteParams c.Quote p))] with
      | none => exact A3 h1 h2 h3
      | some results =>
        simp only
        cases results with
        | nil =>
          rw [if_pos (show ([] : List Nat).length = 0 from rfl)]
          simp only [reader.fetch]
          rw [List_tail]
          exact A4 h1 h2 h3
        | cons k ks =>
          have hne : (k :: ks).length ≠ 0 := by simp
          have hne2 : k :: ks ≠ [] := by simp
          simp only [if_neg hne]
          rw [fetch_some]
          cases h4 : (((r.next c (.Select m true)).next c
              (.UIDSearch (quoteParams c.Quote p))).event c
              (.UIDFetch (some (NewSeqSet.AddNum (k :: ks))) ["FLAGS", "BODY[]"])).error with
          | some e => exact A5 _ e h1 h2 h3 hne2 h4
          | none =>
            simp only
            cases h5 : reader.emailsFromResponse (fetchedRecords
                [((r.next c (.Select m true)).next c
                  (.UIDSearch (quoteParams c.Quote p))).event c
                  (.UIDFetch (some (NewSeqSet.AddNum (k :: ks))) ["FLAGS", "BODY[]"])]) with
            | panic msg => exact A6 _ msg h1 h2 h3 hne2 h4 h5
            | ret v =>
              obtain ⟨ems, oe⟩ := v
              cases oe with
              | some e => exact A7 _ ems e h1 h2 h3 hne2 h4 h5
              | none =>
                simp only
                rw [List_tail]
                exact A8 _ ems h1 h2 h3 hne2 h4 h5


/-! ## Failure of a step -/


/-- For every step of `List` but the last one issued the call succeeded, and
if the last call failed `List` returns its error and no messages. -/
theorem List_failure_core {σ : Type} (c : Client σ) (r : reader σ) (m : String) (p : List Field) :
    allSucceeded (issued r (reader.List c r m p).2.1).dropLast = true ∧
    ∀ err, (issued r (reader.List c r m p).2.1).getLast?.bind Event.error = some err →
      (reader.List c r m p).1 = .ret ([], some err) := by
  apply List_elim c r m p (fun out => allSucceeded (issued r out.2.1).dropLast = true ∧
    ∀ err, (issued r out.2.1).getLast?.bind Event.error = some err →
      out.1 = .ret ([], some err)) _ _ rfl rfl
  case A4 =>
    intro h1 h2 h3
    apply listTail_elim c _ m none [] (fun t => allSucceeded (issued r t.2).dropLast = true ∧
      ∀ err, (issued r t.2).getLast?.bind Event.error = some err →
        t.1 = .ret ([], some err)) _ _ _ _ rfl rfl rfl rfl
    all_goals intros
    all_goals simp_all [issued, next_trace, allSucceeded]
  case A8 =>
    intro results emails h1 h2 h3 hne h4 h5
    apply listTail_elim c _ m _ emails (fun t => allSucceeded (issued r t.2).dropLast = true ∧
      ∀ err, (issued r t.2).getLast?.bind Event.error = some err →
        t.1 = .ret ([], some err)) _ _ _ _ rfl rfl rfl rfl
    all_goals intros
    all_goals simp_all [issued, next_trace, allSucceeded]
  all_goals intros
  all_goals simp_all [issued, next_trace, allSucceeded]

/-- The error `exec` reports for an event: the call could not be issued, or
the server did not answer OK. -/
theorem Event.error_eq_some (e : Event) (err : Error) :
    e.error = some err ↔ (e.res = .error err ∨ ∃ D, e.res = .ok ⟨D, some err⟩) := by
  obtain ⟨cmd, res⟩ := e
  cases res with
  | error x => simp [Event.error, reader.exec]
  | ok ic =>
    obtain ⟨D, res⟩ := ic
    cases res with
    | none => simp [Event.error, reader.exec]
    | some x => simp [Event.error, reader.exec]

/-- C2: if a step of `List` fails, because its command could not be issued or
because the server did not answer OK, then `List` issues no further command
and returns that step's error, unmodified, together with no messages, also
when messages had been fetched before. -/
theorem List_aborts_at_failed_step {σ : Type} (c : Client σ) (r : reader σ) (mailbox : String)
    (params : List Field) (before after : List Event) (e : Event) (err : Error)
    (hstep : issued r (reader.List c r mailbox params).2.1 = before ++ e :: after)
    (hfail : e.res = .error err ∨ ∃ D, e.res = .ok ⟨D, some err⟩) :
    after = [] ∧ (reader.List c r mailbox params).1 = .ret ([], some err) := by
  have herr : e.error = some err := (Event.error_eq_some e err).mpr hfail
  obtain ⟨hgood, hlast⟩ := List_failure_core c r mailbox params
  rw [hstep] at hgood hlast
  have hafter : after = [] := by
    cases after with
    | nil => rfl
    | cons a t =>
      exfalso
      have hmem : e ∈ (before ++ e :: a :: t).dropLast := by
        rw [List.dropLast_append_of_ne_nil _ (by simp)]
        simp [List.dropLast]
      have := List.all_eq_true.mp hgood e hmem
      simp [herr] at this
  subst hafter
  refine ⟨rfl, hlast err ?_⟩
  simp [herr]

/-- Witness of C2: the store fails after a message was fetched; `List` returns
the store's error and no message. -/
theorem List_aborts_at_failed_step_witness :
    (reader.List (scripted quoteWrap) storeFails "INBOX" SearchUnseen).1
      = .ret ([], some "NO store refused") :=
  (List_aborts_at_failed_step (scripted quoteWrap) storeFails "INBOX" SearchUnseen
    (issued storeFails
      (reader.List (scripted quoteWrap) storeFails "INBOX" SearchUnseen).2.1).dropLast
    [] ⟨storeCmd (some ⟨[4]⟩), notOK "NO store refused"⟩ "NO store refused" rfl
    (Or.inr ⟨[], rfl⟩)).2


/-! ## Mailbox state -/


/-- C9, as amended: starting from `Unselected`, in every run of `List` each
search and fetch is issued while the mailbox is selected and each store while
it is `SelectedReadWrite`; whenever `List` returns without error the mailbox
state is `Unselected` again, every select that succeeded being followed by a
close that succeeded; and when `List` returns the error of a select, as for a
mailbox that does not exist, the state is `Unselected`.  This holds whatever
a failed close does to the state; nothing is said of the state after another
step failed. -/
theorem List_mailbox_state {σ : Type} (fx : FailureEffects) (c : Client σ) (r : reader σ)
    (mailbox : String) (params : List Field) :
    wellSequenced fx .Unselected (issued r (reader.List c r mailbox params).2.1) = true ∧
    (∀ emails, (reader.List c r mailbox params).1 = .ret (emails, none) →
      MailboxState.after fx .Unselected (issued r (reader.List c r mailbox params).2.1)
        = .Unselected) ∧
    (∀ emails err mb ro, (reader.List c r mailbox params).1 = .ret (emails, some err) →
      (issued r (reader.List c r mailbox params).2.1).getLast?.map Event.cmd
        = some (Command.Select mb ro) →
      MailboxState.after fx .Unselected (issued r (reader.List c r mailbox params).2.1)
        = .Unselected) := by
  apply List_elim c r mailbox params (fun out =>
    wellSequenced fx .Unselected (issued r out.2.1) = true ∧
    (∀ emails, out.1 = .ret (emails, none) →
      MailboxState.after fx .Unselected (issued r out.2.1) = .Unselected) ∧
    (∀ emails err mb ro, out.1 = .ret (emails, some err) →
      (issued r out.2.1).getLast?.map Event.cmd = some (Command.Select mb ro) →
      MailboxState.after fx .Unselected (issued r out.2.1) = .Unselected)) _ _ rfl rfl
  case A4 =>
    intro h1 h2 h3
    apply listTail_elim c _ mailbox none [] (fun t =>
      wellSequenced fx .Unselected (issued r t.2) = true ∧
      (∀ emails, t.1 = .ret (emails, none) →
        MailboxState.after fx .Unselected (issued r t.2) = .Unselected) ∧
      (∀ emails err mb ro, t.1 = .ret (emails, some err) →
        (issued r t.2).getLast?.map Event.cmd = some (Command.Select mb ro) →
        MailboxState.after fx .Unselected (issued r t.2) = .Unselected))
      _ _ _ _ rfl rfl rfl rfl
    all_goals intros
    all_goals simp_all [issued, next_trace, wellSequenced, MailboxState.after,
      MailboxState.step, MailboxState.allows, reader.event, searchCmd, fetchCmd, storeCmd]
  case A8 =>
    intro results emails h1 h2 h3 hne h4 h5
    apply listTail_elim c _ mailbox _ emails (fun t =>
      wellSequenced fx .Unselected (issued r t.2) = true ∧
      (∀ emails, t.1 = .ret (emails, none) →
        MailboxState.after fx .Unselected (issued r t.2) = .Unselected) ∧
      (∀ emails err mb ro, t.1 = .ret (emails, some err) →
        (issued r t.2).getLast?.map Event.cmd = some (Command.Select mb ro) →
        MailboxState.after fx .Unselected (issued r t.2) = .Unselected))
      _ _ _ _ rfl rfl rfl rfl
    all_goals intros
    all_goals simp_all [issued, next_trace, wellSequenced, MailboxState.after,
      MailboxState.step, MailboxState.allows, reader.event, searchCmd, fetchCmd, storeCmd]
  all_goals intros
  all_goals simp_all [issued, next_trace, wellSequenced, MailboxState.after,
      MailboxState.step, MailboxState.allows, reader.event, searchCmd, fetchCmd, storeCmd]

/-! ## Message framing -/

/-- A blank is no line feed. -/
theorem isBlank_ne_lf (c : Char) (h : isBlank c = true) : c ≠ '\n' := by
  intro hc
  rw [hc] at h
  exact absurd h (by decide)

/-- A printable byte is no line feed. -/
theorem isTextByte_ne_lf (c : Char) (h : isTextByte c = true) : c ≠ '\n' := by
  intro hc
  rw [hc] at h
  exact absurd h (by decide)

/-- A token byte is no line feed. -/
theorem isTokenByte_ne_lf (c : Char) (h : isTokenByte c = true) : c ≠ '\n' := by
  intro hc
  rw [hc] at h
  exact absurd h (by decide)

/-- A token byte is no colon. -/
theorem isTokenByte_ne_colon (c : Char) (h : isTokenByte c = true) : c ≠ ':' := by
  intro hc
  rw [hc] at h
  exact absurd h (by decide)

/-- A token byte is no blank. -/
theorem isTokenByte_not_blank (c : Char) (h : isTokenByte c = true) : isBlank c = false := by
  cases hb : isBlank c with
  | false => rfl
  | true =>
    exfalso
    simp only [isBlank, Bool.or_eq_true, beq_iff_eq] at hb
    rcases hb with hb | hb <;> (rw [hb] at h; exact absurd h (by decide))


/-- Reading up to the line feed that ends a line. -/
theorem readLines_line (l cur rest : Bytes) (hl : '\n' ∉ l) :
    readLines cur (l ++ '\n' :: rest) = readLines (cur ++ l) ('\n' :: rest) := by
  induction l generalizing cur with
  | nil => simp
  | cons a t ih =>
    have ha : a ≠ '\n' := fun h => hl (by simp [h])
    have ht : '\n' ∉ t := fun h => hl (by simp [h])
    have step : readLines cur (a :: (t ++ '\n' :: rest))
        = readLines (cur ++ [a]) (t ++ '\n' :: rest) := by
      conv => lhs; unfold readLines
      simp [ha]
    rw [List.cons_append, step, ih _ ht, List.append_assoc]
    rfl

/-- A line that ends in CR loses the CR. -/
theorem stripCR_concat (l : Bytes) : stripCR (l ++ ['\r']) = l := by
  simp [stripCR]

/-- A non-empty line ended by CRLF is one physical line. -/
theorem readLines_crlf (l rest : Bytes) (hl : '\n' ∉ l) (hne : l ≠ []) :
    readLines [] (l ++ ['\r', '\n'] ++ rest) =
      (l :: (readLines [] rest).1, (readLines [] rest).2) := by
  have h : l ++ ['\r', '\n'] ++ rest = (l ++ ['\r']) ++ '\n' :: rest := by simp
  have hno : '\n' ∉ l ++ ['\r'] := by
    simp only [List.mem_append, List.mem_singleton, not_or]
    exact ⟨hl, by decide⟩
  have step : readLines (l ++ ['\r']) ('\n' :: rest)
      = (l :: (readLines [] rest).1, (readLines [] rest).2) := by
    conv => lhs; unfold readLines
    rw [if_pos rfl, stripCR_concat, if_neg hne]
  rw [h, readLines_line _ _ _ hno, List.nil_append, step]

/-- The blank line that ends the header. -/
theorem readLines_end (rest : Bytes) : readLines [] (['\r', '\n'] ++ rest) = ([], some rest) := by
  simp [readLines, stripCR]

/-- What a well-formed value line is, part by part. -/
theorem segment_wellFormed_parts (p : Segment) (h : p.wellFormed = true) :
    (∀ c ∈ p.lead, isBlank c = true) ∧ (∀ c ∈ p.trail, isBlank c = true) ∧
      (∀ c ∈ p.text, isTextByte c = true) ∧
      p.text.head?.any isBlank = false ∧ p.text.getLast?.any isBlank = false := by
  simp only [Segment.wellFormed, Bool.and_eq_true, Bool.not_eq_true', List.all_eq_true] at h
  obtain ⟨⟨⟨⟨h1, h2⟩, h3⟩, h4⟩, h5⟩ := h
  exact ⟨h1, h2, h3, h4, h5⟩

/-- What a well-formed header field is, part by part. -/
theorem fieldLines_wellFormed_parts (f : FieldLines) (h : f.wellFormed = true) :
    f.name ≠ [] ∧ (∀ c ∈ f.name, isTokenByte c = true) ∧ f.first.wellFormed = true ∧
      (∀ p ∈ f.more, p.wellFormed = true ∧ p.lead ≠ []) := by
  simp only [FieldLines.wellFormed, Bool.and_eq_true, Bool.not_eq_true', List.all_eq_true,
    List.isEmpty_eq_false] at h
  obtain ⟨⟨⟨h1, h2⟩, h3⟩, h4⟩ := h
  exact ⟨h1, h2, h3, h4⟩

/-- A well-formed value line has no line feed. -/
theorem segment_line_no_lf (p : Segment) (h : p.wellFormed = true) : '\n' ∉ p.line := by
  obtain ⟨h1, h2, h3, _, _⟩ := segment_wellFormed_parts p h
  simp only [Segment.line, List.mem_append]
  rintro ((hm | hm) | hm)
  · exact isBlank_ne_lf _ (h1 _ hm) rfl
  · exact isTextByte_ne_lf _ (h3 _ hm) rfl
  · exact isBlank_ne_lf _ (h2 _ hm) rfl

/-- The physical lines of continuation lines. -/
theorem readLines_segments (ps : List Segment) (rest : Bytes)
    (h : ∀ p ∈ ps, p.wellFormed = true ∧ p.lead ≠ []) :
    readLines [] (encodeSegments ps ++ rest) =
      (ps.map Segment.line ++ (readLines [] rest).1, (readLines [] rest).2) := by
  induction ps with
  | nil => simp [encodeSegments]
  | cons p ps ih =>
    obtain ⟨hp, hl⟩ := h p (by simp)
    have hne : p.line ≠ [] := by
      intro h0
      simp only [Segment.line, List.append_eq_nil] at h0
      exact hl h0.1.1
    have e : encodeSegments (p :: ps) ++ rest
        = p.line ++ ['\r', '\n'] ++ (encodeSegments ps ++ rest) := by
      simp [encodeSegments]
    rw [e, readLines_crlf _ _ (segment_line_no_lf p hp) hne, ih (fun q hq => h q (by simp [hq]))]
    simp

/-- The physical lines of one encoded field. -/
theorem readLines_field (f : FieldLines) (rest : Bytes) (h : f.wellFormed = true) :
    readLines [] (f.encode ++ rest) =
      (f.lines ++ (readLines [] rest).1, (readLines [] rest).2) := by
  obtain ⟨hn, htok, hfirst, hmore⟩ := fieldLines_wellFormed_parts f h
  have e : f.encode ++ rest
      = (f.name ++ ':' :: f.first.line) ++ ['\r', '\n'] ++ (encodeSegments f.more ++ rest) := by
    simp [FieldLines.encode, encodeSegments]
  have hno : '\n' ∉ f.name ++ ':' :: f.first.line := by
    simp only [List.mem_append, List.mem_cons]
    rintro (hm | hm | hm)
    · exact isTokenByte_ne_lf _ (htok _ hm) rfl
    · exact absurd hm (by decide)
    · exact segment_line_no_lf f.first hfirst hm
  have hne : f.name ++ ':' :: f.first.line ≠ [] := by simp
  rw [e, readLines_crlf _ _ hno hne, readLines_segments _ _ hmore]
  simp [FieldLines.lines]

/-- The physical lines of an encoded message, and its body. -/
theorem readLines_message (fields : List FieldLines) (body : Bytes)
    (h : ∀ f ∈ fields, f.wellFormed = true) :
    readLines [] (encodeMessage fields body) = (physicalLines fields, some body) := by
  unfold encodeMessage
  induction fields with
  | nil => simp [encodeFields, physicalLines, readLines, stripCR]
  | cons f fs ih =>
    have e : encodeFields (f :: fs) ++ ['\r', '\n'] ++ body
        = f.encode ++ (encodeFields fs ++ ['\r', '\n'] ++ body) := by
      simp [encodeFields]
    rw [e, readLines_field f _ (h f (by simp)), ih (fun g hg => h g (by simp [hg]))]
    simp [physicalLines]


/-- Dropping leading elements that all satisfy the test. -/
theorem dropWhile_append_all {α : Type} (p : α → Bool) (a b : List α)
    (h : ∀ c ∈ a, p c = true) : (a ++ b).dropWhile p = b.dropWhile p := by
  induction a with
  | nil => rfl
  | cons x t ih =>
    rw [List.cons_append, List.dropWhile_cons, if_pos (h x (by simp))]
    exact ih (fun c hc => h c (by simp [hc]))

/-- Dropping blanks from a list that does not start with one. -/
theorem dropWhile_blank_of_head (v : Bytes) (h : v.head?.any isBlank = false) :
    v.dropWhile isBlank = v := by
  cases v with
  | nil => rfl
  | cons a t =>
    simp only [List.head?_cons, Option.any_some] at h
    simp [List.dropWhile_cons, h]

/-- Trailing blanks are dropped. -/
theorem dropTrail_append_blank (a b : Bytes) (h : ∀ c ∈ b, isBlank c = true) :
    dropTrail (a ++ b) = dropTrail a := by
  unfold dropTrail
  rw [List.reverse_append, dropWhile_append_all isBlank b.reverse a.reverse
    (fun c hc => h c (List.mem_reverse.mp hc))]

/-- Nothing is dropped at the end of a list that does not end in a blank. -/
theorem dropTrail_of_last (a : Bytes) (h : a.getLast?.any isBlank = false) : dropTrail a = a := by
  unfold dropTrail
  rw [dropWhile_blank_of_head a.reverse (by simpa using h)]
  simp

/-- Trimming is dropping the blanks at the start, then those at the end. -/
theorem trim_eq (l : Bytes) : trim l = dropTrail (l.dropWhile isBlank) := rfl

/-- A well-formed value line is trimmed to its text. -/
theorem trim_segment (p : Segment) (h : p.wellFormed = true) : trim p.line = p.text := by
  obtain ⟨h1, h2, _, h4, h5⟩ := segment_wellFormed_parts p h
  rw [trim_eq, Segment.line, List.append_assoc, dropWhile_append_all isBlank _ _ h1]
  cases ht : p.text with
  | nil =>
    rw [List.nil_append, ← List.append_nil p.trail, dropWhile_append_all isBlank _ _ h2]
    rfl
  | cons a t =>
    rw [← ht, dropWhile_blank_of_head (p.text ++ p.trail) (by
      rw [ht] at h4 ⊢
      simpa using h4), dropTrail_append_blank _ _ h2, dropTrail_of_last _ h5]

/-- The line that carries the name, trimmed. -/
theorem trim_first (name : Bytes) (p : Segment) (hn : name ≠ [])
    (htok : ∀ c ∈ name, isTokenByte c = true) (h : p.wellFormed = true) :
    trim (name ++ ':' :: p.line) =
      name ++ ':' :: (if p.text = [] then [] else p.lead ++ p.text) := by
  obtain ⟨h1, h2, _, h4, h5⟩ := segment_wellFormed_parts p h
  have hhead : (name ++ ':' :: p.line).head?.any isBlank = false := by
    cases name with
    | nil => exact absurd rfl hn
    | cons a t =>
      simp only [List.cons_append, List.head?_cons, Option.any_some]
      exact isTokenByte_not_blank a (htok a (by simp))
  rw [trim_eq, dropWhile_blank_of_head _ hhead]
  by_cases ht : p.text = []
  · rw [if_pos ht]
    have e : name ++ ':' :: p.line = (name ++ [':']) ++ (p.lead ++ p.trail) := by
      simp [Segment.line, ht]
    have hb : ∀ c ∈ p.lead ++ p.trail, isBlank c = true := by
      intro c hc
      rcases List.mem_append.mp hc with hc | hc
      · exact h1 c hc
      · exact h2 c hc
    rw [e, dropTrail_append_blank _ _ hb, dropTrail_of_last _ (by simp; decide)]
  · rw [if_neg ht]
    have e : name ++ ':' :: p.line = (name ++ ':' :: (p.lead ++ p.text)) ++ p.trail := by
      simp [Segment.line]
    have hlast : (name ++ ':' :: (p.lead ++ p.text)).getLast?.any isBlank = false := by
      have : (name ++ ':' :: (p.lead ++ p.text)).getLast? = p.text.getLast? := by
        have e2 : name ++ ':' :: (p.lead ++ p.text) = (name ++ ':' :: p.lead) ++ p.text := by simp
        rw [e2, List.getLast?_append]
        cases hx : p.text.getLast? with
        | none => exact absurd (List.getLast?_eq_none_iff.mp hx) ht
        | some x => rfl
      rw [this]
      exact h5
    rw [e, dropTrail_append_blank _ _ h2, dropTrail_of_last _ hlast]

/-- A line followed by its continuation lines is one logical line. -/
theorem joinLines_continued (ps : List Segment) (l : Bytes) (rest : List Bytes)
    (h : ∀ p ∈ ps, p.wellFormed = true ∧ p.lead ≠ [])
    (hrest : rest.head?.any startsBlank = false) :
    joinLines (l :: (ps.map Segment.line ++ rest)) =
      (trim l ++ unfoldText ps) :: joinLines rest := by
  induction ps generalizing l with
  | nil =>
    simp only [List.map_nil, List.nil_append, unfoldText, List.append_nil]
    conv => lhs; unfold joinLines
    rw [hrest]
  | cons p ps ih =>
    obtain ⟨hp, hl⟩ := h p (by simp)
    have hsb : startsBlank p.line = true := by
      obtain ⟨h1, _⟩ := segment_wellFormed_parts p hp
      cases hlead : p.lead with
      | nil => exact absurd hlead hl
      | cons a t =>
        simp only [startsBlank, Segment.line, hlead, List.cons_append, List.head?_cons,
          Option.any_some]
        exact h1 a (by simp [hlead])
    have ih2 := ih p.line (fun q hq => h q (by simp [hq]))
    simp only [List.map_cons, List.cons_append]
    conv => lhs; unfold joinLines
    simp only [List.head?_cons, Option.any_some, hsb, ih2, trim_segment p hp, unfoldText]
    rfl

/-- No physical line of well-formed fields that carries a name starts with a
blank. -/
theorem physicalLines_head (fields : List FieldLines) (h : ∀ f ∈ fields, f.wellFormed = true) :
    (physicalLines fields).head?.any startsBlank = false := by
  cases fields with
  | nil => rfl
  | cons f fs =>
    obtain ⟨hn, htok, _, _⟩ := fieldLines_wellFormed_parts f (h f (by simp))
    cases hname : f.name with
    | nil => exact absurd hname hn
    | cons a t =>
      simp only [physicalLines, FieldLines.lines, hname, List.cons_append, List.head?_cons,
        Option.any_some, startsBlank]
      exact isTokenByte_not_blank a (htok a (by simp [hname]))

/-- The logical lines of well-formed fields, one per field. -/
theorem joinLines_fields (fields : List FieldLines) (h : ∀ f ∈ fields, f.wellFormed = true) :
    joinLines (physicalLines fields) = fields.map FieldLines.logical := by
  induction fields with
  | nil => rfl
  | cons f fs ih =>
    obtain ⟨_, _, _, hmore⟩ := fieldLines_wellFormed_parts f (h f (by simp))
    have hfs : ∀ g ∈ fs, g.wellFormed = true := fun g hg => h g (by simp [hg])
    simp only [physicalLines, FieldLines.lines, List.cons_append, List.map_cons]
    rw [joinLines_continued f.more _ _ hmore (physicalLines_head fs hfs), ih hfs]
    rfl


/-- Splitting at the colon that follows a name without colon. -/
theorem splitColon_name (k v : Bytes) (hk : ':' ∉ k) :
    splitColon (k ++ ':' :: v) = some (k, v) := by
  induction k with
  | nil => simp [splitColon]
  | cons a t ih =>
    have ha : a ≠ ':' := fun h => hk (by simp [h])
    have ht : ':' ∉ t := fun h => hk (by simp [h])
    simp [splitColon, ha, ih ht]

/-- The canonical spelling of a non-empty name is not empty. -/
theorem canonical_ne_nil (s : Bytes) (h : s ≠ []) : CanonicalMIMEHeaderKey s ≠ [] := by
  unfold CanonicalMIMEHeaderKey
  split
  · cases s with
    | nil => exact absurd rfl h
    | cons a t => simp [canonLoop]
  · exact h

/-- The logical line of a well-formed field is parsed to its canonical name
and its value. -/
theorem parseLine_logical (f : FieldLines) (h : f.wellFormed = true) :
    parseLine f.logical = .ok (some (CanonicalMIMEHeaderKey f.name, f.value)) := by
  obtain ⟨hn, htok, hfirst, _⟩ := fieldLines_wellFormed_parts f h
  obtain ⟨h1, _, _, h4, _⟩ := segment_wellFormed_parts f.first hfirst
  have hc : ':' ∉ f.name := fun hm => isTokenByte_ne_colon _ (htok _ hm) rfl
  have e : f.logical = f.name ++ ':' ::
      ((if f.first.text = [] then [] else f.first.lead ++ f.first.text) ++ unfoldText f.more) := by
    rw [FieldLines.logical, trim_first f.name f.first hn htok hfirst]
    simp
  have hv : ((if f.first.text = [] then [] else f.first.lead ++ f.first.text)
      ++ unfoldText f.more).dropWhile isBlank = f.value := by
    unfold FieldLines.value
    by_cases ht : f.first.text = []
    · rw [if_pos ht, ht]
    · rw [if_neg ht, List.append_assoc, dropWhile_append_all isBlank _ _ h1]
  rw [e]
  unfold parseLine
  rw [splitColon_name _ _ hc]
  simp only [if_neg (canonical_ne_nil f.name hn), hv]

/-- The header of the logical lines of well-formed fields. -/
theorem parseLines_logical (fields : List FieldLines) (h : ∀ f ∈ fields, f.wellFormed = true) :
    parseLines (fields.map FieldLines.logical) =
      .ok (fields.map (fun f => (CanonicalMIMEHeaderKey f.name, f.value))) := by
  induction fields with
  | nil => rfl
  | cons f fs ih =>
    simp only [List.map_cons]
    unfold parseLines
    rw [parseLine_logical f (h f (by simp)), ih (fun g hg => h g (by simp [hg]))]
    rfl

/-- An encoded message does not start with a blank. -/
theorem encodeMessage_head (fields : List FieldLines) (body : Bytes)
    (h : ∀ f ∈ fields, f.wellFormed = true) :
    startsBlank (encodeMessage fields body) = false := by
  cases fields with
  | nil => simp [encodeMessage, encodeFields, startsBlank]; decide
  | cons f fs =>
    obtain ⟨hn, htok, _, _⟩ := fieldLines_wellFormed_parts f (h f (by simp))
    cases hname : f.name with
    | nil => exact absurd hname hn
    | cons a t =>
      simp only [encodeMessage, encodeFields, FieldLines.encode, hname, List.cons_append,
        startsBlank, List.head?_cons, Option.any_some]
      exact isTokenByte_not_blank a (htok a (by simp [hname]))

/-- The parse of an encoded message by `ReadMessage`: the fields under their
canonical names, and the body untouched. -/
theorem ReadMessage_encoded (fields : List FieldLines) (body : Bytes)
    (h : ∀ f ∈ fields, f.wellFormed = true) :
    ReadMessage (encodeMessage fields body) =
      .ok ⟨fields.map (fun f => (CanonicalMIMEHeaderKey f.name, f.value)), body⟩ := by
  unfold ReadMessage
  rw [encodeMessage_head fields body h, readLines_message fields body h]
  simp only [joinLines_fields fields h, parseLines_logical fields h]
  rfl

/-- Looking a key up among the fields under their canonical names. -/
theorem lookup_fields (fields : List FieldLines) (key : Bytes) :
    ((fields.map (fun f => (CanonicalMIMEHeaderKey f.name, f.value))).lookup
        (CanonicalMIMEHeaderKey key)).getD [] = firstValue fields key := by
  unfold firstValue
  induction fields with
  | nil => rfl
  | cons f fs ih =>
    simp only [List.map_cons, List.lookup_cons, List.find?_cons]
    cases hk : CanonicalMIMEHeaderKey key == CanonicalMIMEHeaderKey f.name with
    | true => rfl
    | false => exact ih

/-! ## `newEmail` -/

/-- The flag loop of `newEmail` collects the keys in enumeration order. -/
theorem flagLoop_eq (keys acc : List String) :
    keys.foldl (fun flags k => flags ++ [k]) acc = acc ++ keys := by
  induction keys generalizing acc with
  | nil => simp
  | cons k ks ih => simp [List.foldl_cons, ih]

/-- What `newEmail` returns for a record whose `BODY[]` is a literal. -/
theorem newEmail_literal (info : MessageInfo) (lit : Literal)
    (hbody : info.Attrs.lookup "BODY[]" = some (.literal lit)) :
    newEmail (.fetch info) =
      match lit.err with
      | some err => .ret (.error err)
      | none =>
        match ReadMessage lit.data with
        | .error err => .ret (.error err)
        | .ok msg => .ret (.ok ⟨info.Flags.keys, msg.Header, msg.Body⟩) := by
  unfold newEmail
  simp only [Response.MessageInfo, hbody, Literal.WriteTo, List.nil_append, ReadAll, flagLoop_eq]

/-- The flags of an email that `newEmail` returns are the keys of the
record's flag set. -/
theorem newEmail_flags (resp : Response) (info : MessageInfo) (em : Email)
    (hinfo : resp.MessageInfo = some info) (h : newEmail resp = .ret (.ok em)) :
    em.Flags = info.Flags.keys := by
  unfold newEmail at h
  rw [hinfo] at h
  simp only at h
  split at h
  · rename_i lit hl
    simp only [Literal.WriteTo, List.nil_append, ReadAll, flagLoop_eq] at h
    split at h
    · simp at h
    · split at h
      · simp at h
      · simp only [Run.ret.injEq, Except.ok.injEq] at h
        rw [← h]
  · simp at h

/-- C8: the flags of the email `newEmail` returns for a record hold each flag
name of the record's flag set exactly once and nothing else, in number the
size of the flag set; a record without flags gives an email without flags. -/
theorem newEmail_flags_exact (resp : Response) (info : MessageInfo) (em : Email)
    (hinfo : resp.MessageInfo = some info) (h : newEmail resp = .ret (.ok em)) :
    (∀ k, em.Flags.count k = if k ∈ info.Flags.keys then 1 else 0) ∧
      (∀ k, k ∈ em.Flags ↔ k ∈ info.Flags.keys) ∧
      em.Flags.Perm info.Flags.keys ∧
      em.Flags.length = info.Flags.len ∧
      (info.Flags.len = 0 → em.Flags = []) := by
  have hf := newEmail_flags resp info em hinfo h
  have hnd : info.Flags.keys.Nodup := info.Flags.nodup
  rw [hf]
  refine ⟨fun k => ?_, fun k => Iff.rfl, List.Perm.refl _, by simp [FlagSet.keys, FlagSet.len], ?_⟩
  · by_cases hk : k ∈ info.Flags.keys
    · rw [if_pos hk]
      exact List.count_eq_one_of_mem hnd hk
    · rw [if_neg hk]
      exact List.count_eq_zero_of_not_mem hk
  · intro h0
    have : info.Flags.keys.length = 0 := by simpa [FlagSet.keys, FlagSet.len] using h0
    exact List.length_eq_zero.mp this

/-- C5, as amended: a `BODY[]` literal made of well-formed header fields (a
token name, a colon, a printable value; blanks around the value and folded
continuation lines allowed), every line ended by CRLF, then a blank line, then
body bytes `B`, is turned by `newEmail` into an email whose body is `B`, byte
for byte, and whose header returns for a field name the value of the first
field of the literal whose name has the same canonical spelling (the same name
up to case), a folded value with its lines joined by single spaces.  So where
a name is written once, up to case, the header returns the value written for
it. -/
theorem newEmail_round_trip (fields : List FieldLines) (B : Bytes)
    (attrs : List (String × Field)) (flags : FlagSet)
    (hwf : ∀ f ∈ fields, f.wellFormed = true)
    (hbody : attrs.lookup "BODY[]" = some (.literal ⟨encodeMessage fields B, none⟩)) :
    ∃ em, newEmail (.fetch ⟨attrs, flags⟩) = .ret (.ok em) ∧ em.Body = B ∧
      (∀ key, em.Header.Get key = firstValue fields key) ∧
      (∀ f ∈ fields,
        (∀ g ∈ fields, CanonicalMIMEHeaderKey g.name = CanonicalMIMEHeaderKey f.name → g = f) →
        em.Header.Get f.name = f.value) := by
  have hget : ∀ key,
      Header.Get (fields.map (fun f => (CanonicalMIMEHeaderKey f.name, f.value))) key
        = firstValue fields key := by
    intro key
    rw [← lookup_fields fields key]
    unfold Header.Get
    cases (fields.map (fun f => (CanonicalMIMEHeaderKey f.name, f.value))).lookup
      (CanonicalMIMEHeaderKey key) <;> rfl
  refine ⟨⟨flags.keys, fields.map (fun f => (CanonicalMIMEHeaderKey f.name, f.value)), B⟩,
    ?_, rfl, hget, ?_⟩
  · rw [newEmail_literal ⟨attrs, flags⟩ _ hbody]
    simp only [ReadMessage_encoded fields B hwf]
  · intro f hf hone
    show Header.Get (fields.map (fun f => (CanonicalMIMEHeaderKey f.name, f.value))) f.name
      = f.value
    rw [hget, firstValue]
    cases hfind : fields.find?
        (fun g => CanonicalMIMEHeaderKey f.name == CanonicalMIMEHeaderKey g.name) with
    | none =>
      have := List.find?_eq_none.mp hfind f hf
      simp at this
    | some g =>
      have hg : g ∈ fields := List.mem_of_find?_eq_some hfind
      have hp := List.find?_some hfind
      simp only [beq_iff_eq] at hp
      rw [hone g hg hp.symm]

/-- Witness of C5: the message of the tests comes back unchanged, and a
subject folded over two lines comes back on one, under any spelling of the
name. -/
theorem newEmail_round_trip_witness :
    (∃ em, newEmail (RefMessage.record ⟨1, [], Msg⟩) = .ret (.ok em) ∧
      em.Body = "Hello, ponies\r\n".toList ∧
      em.Header.Get "Subject".toList = "Fancy ponies".toList ∧
      em.Header.Get "From".toList = "Fancy pony <fancy@ponies.org>".toList) ∧
    (∃ em, newEmail (.fetch ⟨[("BODY[]", .literal
        ⟨"Subject: Fancy\r\n ponies \r\n\r\nB".toList, none⟩)], NewFlagSet []⟩)
        = .ret (.ok em) ∧
      em.Body = "B".toList ∧
      em.Header.Get "subject".toList = "Fancy ponies".toList) := by
  obtain ⟨em, h1, h2, h3, _⟩ := newEmail_round_trip testFields
    "Hello, ponies\r\n".toList
    [("UID", .num 1), ("BODY[]", .literal ⟨Msg, none⟩)] (NewFlagSet [])
    (by decide) (by rfl)
  obtain ⟨em2, g1, g2, g3, _⟩ := newEmail_round_trip foldedSubject "B".toList
    [("BODY[]", .literal ⟨"Subject: Fancy\r\n ponies \r\n\r\nB".toList, none⟩)]
    (NewFlagSet []) (by decide) (by rfl)
  exact ⟨⟨em, h1, h2, by rw [h3]; rfl, by rw [h3]; rfl⟩, ⟨em2, g1, g2, by rw [g3]; rfl⟩⟩

/-- Counterexample to C5 as stated: the literal writes `subject: 1` and then
`Subject: 2`, both well-formed lines; for the field name `Subject` the header
returns `1`, not the value `2` written for it. -/
theorem header_returns_first_spelling :
    (∀ f ∈ twoSubjects, f.wellFormed = true) ∧
    encodeMessage twoSubjects "body".toList = "subject: 1\r\nSubject: 2\r\n\r\nbody".toList ∧
    (∃ em, newEmail (.fetch ⟨[("BODY[]", .literal
        ⟨"subject: 1\r\nSubject: 2\r\n\r\nbody".toList, none⟩)], NewFlagSet []⟩)
        = .ret (.ok em) ∧
      em.Header.Get "Subject".toList = "1".toList ∧
      em.Header.Get "Subject".toList ≠ "2".toList) :=
  ⟨by decide, rfl,
    ⟨[], [("Subject".toList, "1".toList), ("Subject".toList, "2".toList)], "body".toList⟩,
    rfl, rfl, by decide⟩

/-- Witness of C8: the freshly appended message has no flags. -/
theorem newEmail_flags_exact_witness : freshEmail.Flags = [] :=
  (newEmail_flags_exact (RefMessage.record ⟨1, [], Msg⟩)
    ⟨[("UID", .num 1), ("BODY[]", .literal ⟨Msg, none⟩)], NewFlagSet []⟩ freshEmail
    rfl rfl).2.2.2.2 rfl

/-! ## `emailsFromResponse` and `fetch` -/

/-- The loop over records that all give an email. -/
theorem emailsLoop_ok (data : List Response) (ems acc : List Email)
    (h : List.Forall₂ (fun d em => newEmail d = .ret (.ok em)) data ems) :
    emailsLoop data acc = .ret (acc ++ ems, none) := by
  induction h generalizing acc with
  | nil => simp [emailsLoop]
  | cons hd _ ih =>
    unfold emailsLoop
    rw [hd]
    simp only
    rw [ih]
    simp

/-- The loop returns without error only if every record gave an email. -/
theorem emailsLoop_ok_inv (data : List Response) (acc emails : List Email)
    (h : emailsLoop data acc = .ret (emails, none)) :
    ∃ ems, List.Forall₂ (fun d em => newEmail d = .ret (.ok em)) data ems ∧
      emails = acc ++ ems := by
  induction data generalizing acc with
  | nil =>
    simp only [emailsLoop, Run.ret.injEq, Prod.mk.injEq, and_true] at h
    exact ⟨[], List.Forall₂.nil, by simp [h]⟩
  | cons d ds ih =>
    unfold emailsLoop at h
    split at h
    · simp at h
    · simp at h
    · rename_i em hem
      obtain ⟨ems, hf, he⟩ := ih _ h
      exact ⟨em :: ems, List.Forall₂.cons hem hf, by simp [he]⟩

/-- The loop stops at the first record that gives an error, with that error
and no email. -/
theorem emailsLoop_error (before after : List Response) (d : Response) (ems acc : List Email)
    (err : Error)
    (h : List.Forall₂ (fun d em => newEmail d = .ret (.ok em)) before ems)
    (hd : newEmail d = .ret (.error err)) :
    emailsLoop (before ++ d :: after) acc = .ret ([], some err) := by
  induction h generalizing acc with
  | nil =>
    simp only [List.nil_append]
    unfold emailsLoop
    rw [hd]
  | cons hx _ ih =>
    simp only [List.cons_append]
    unfold emailsLoop
    rw [hx]
    simp only
    exact ih _

/-- The loop never returns an error together with emails. -/
theorem emailsLoop_error_alone (data : List Response) (acc emails : List Email) (err : Error)
    (h : emailsLoop data acc = .ret (emails, some err)) : emails = [] := by
  induction data generalizing acc with
  | nil => simp [emailsLoop] at h
  | cons d ds ih =>
    unfold emailsLoop at h
    split at h
    · simp at h
    · simp only [Run.ret.injEq, Prod.mk.injEq] at h
      exact h.1.symm
    · exact ih _ h

/-- The event of a call answered with OK. -/
theorem event_ok {σ : Type} (c : Client σ) (r : reader σ) (cmd : Command)
    (D : List Response) (s : σ) (h : c.send r.client cmd = (.ok ⟨D, none⟩, s)) :
    r.event c cmd = ⟨cmd, .ok ⟨D, none⟩⟩ ∧ (r.event c cmd).error = none ∧
      (r.next c cmd).client = s := by
  simp [reader.event, reader.next, reader.call, h, Event.error, reader.exec]

/-- The fetch step is all or nothing: if every record of the answer gives an
email, `fetch` returns these emails in record order; if the first record that
gives none carries a `BODY[]` literal that cannot be read or does not parse,
`fetch` returns that error and no email; and `fetch` never returns an error
together with emails. -/
theorem fetch_all_or_nothing {σ : Type} (c : Client σ) (r : reader σ) (S : SeqSet)
    (data : List Response) (s : σ)
    (hsend : c.send r.client (.UIDFetch (some S) ["FLAGS", "BODY[]"]) = (.ok ⟨data, none⟩, s)) :
    (∀ emails, List.Forall₂ (fun d em => newEmail d = .ret (.ok em)) data emails →
      (r.fetch c (some S)).1 = .ret (emails, none)) ∧
    (∀ before after info lit ems err, data = before ++ .fetch info :: after →
      List.Forall₂ (fun d em => newEmail d = .ret (.ok em)) before ems →
      info.Attrs.lookup "BODY[]" = some (.literal lit) →
      (lit.err = some err ∨ (lit.err = none ∧ ReadMessage lit.data = .error err)) →
      (r.fetch c (some S)).1 = .ret ([], some err)) ∧
    (∀ emails err, (r.fetch c (some S)).1 = .ret (emails, some err) → emails = []) := by
  obtain ⟨hev, herr, _⟩ := event_ok c r _ data s hsend
  have hf : (r.fetch c (some S)).1 =
      match emailsLoop data [] with
      | .panic msg => .panic msg
      | .ret (_, some err) => .ret ([], some err)
      | .ret (emails, none) => .ret (emails, none) := by
    rw [fetch_some, herr]
    simp only [hev, fetchedRecords, reader.emailsFromResponse]
  refine ⟨?_, ?_, ?_⟩
  · intro emails h
    rw [hf, emailsLoop_ok data emails [] h]
    rfl
  · intro before after info lit ems err hd hb hl hfail
    have hne : newEmail (.fetch info) = .ret (.error err) := by
      rw [newEmail_literal info lit hl]
      rcases hfail with h | ⟨h1, h2⟩
      · rw [h]
      · rw [h1]
        simp only [h2]
    rw [hf, hd, emailsLoop_error before after _ ems [] err hb hne]
  · intro emails err h
    rw [hf] at h
    split at h
    · simp at h
    · simp only [Run.ret.injEq, Prod.mk.injEq] at h
      exact h.1.symm
    · simp at h



/-! ## The command sequence of `List` -/

/-- The commands of a run of `List` in which every call succeeds, the search
answer reports `results` and the records of the fetch answer give `emails`. -/
theorem List_success_core {σ : Type} (c : Client σ) (r : reader σ) (m : String) (p : List Field)
    (results : List Nat) (emails : List Email) :
    allSucceeded (issued r (reader.List c r m p).2.1) = true →
    searchReport (issued r (reader.List c r m p).2.1) = some results →
    reader.emailsFromResponse (fetchedRecords (issued r (reader.List c r m p).2.1))
      = .ret (emails, none) →
    commands (issued r (reader.List c r m p).2.1) =
      [Command.Select m true, Command.UIDSearch (quoteParams c.Quote p)]
        ++ (if results = [] then []
            else [Command.UIDFetch (some (NewSeqSet.AddNum results)) ["FLAGS", "BODY[]"]])
        ++ [Command.Close false]
        ++ (if r.opts.MarkSeen && decide (emails.length > 0) then
              [Command.Select m false,
                Command.UIDStore (some (NewSeqSet.AddNum results)) "+FLAGS.SILENT" ["\\Seen"],
                Command.Close false]
            else []) ∧
    (reader.List c r m p).1 = .ret (emails, none) := by
  apply List_elim c r m p (fun out =>
    allSucceeded (issued r out.2.1) = true →
    searchReport (issued r out.2.1) = some results →
    reader.emailsFromResponse (fetchedRecords (issued r out.2.1)) = .ret (emails, none) →
    commands (issued r out.2.1) =
      [Command.Select m true, Command.UIDSearch (quoteParams c.Quote p)]
        ++ (if results = [] then []
            else [Command.UIDFetch (some (NewSeqSet.AddNum results)) ["FLAGS", "BODY[]"]])
        ++ [Command.Close false]
        ++ (if r.opts.MarkSeen && decide (emails.length > 0) then
              [Command.Select m false,
                Command.UIDStore (some (NewSeqSet.AddNum results)) "+FLAGS.SILENT" ["\\Seen"],
                Command.Close false]
            else []) ∧
    out.1 = .ret (emails, none)) _ _ rfl rfl
  case A4 =>
    intro h1 h2 h3
    apply listTail_elim c _ m none [] (fun t =>
      allSucceeded (issued r t.2) = true →
      searchReport (issued r t.2) = some results →
      reader.emailsFromResponse (fetchedRecords (issued r t.2)) = .ret (emails, none) →
      commands (issued r t.2) =
        [Command.Select m true, Command.UIDSearch (quoteParams c.Quote p)]
          ++ (if results = [] then []
              else [Command.UIDFetch (some (NewSeqSet.AddNum results)) ["FLAGS", "BODY[]"]])
          ++ [Command.Close false]
          ++ (if r.opts.MarkSeen && decide (emails.length > 0) then
                [Command.Select m false,
                  Command.UIDStore (some (NewSeqSet.AddNum results)) "+FLAGS.SILENT" ["\\Seen"],
                  Command.Close false]
              else []) ∧
      t.1 = .ret (emails, none)) _ _ _ _ rfl rfl rfl rfl
    all_goals intros
    all_goals simp_all [issued, next_trace, allSucceeded, commands, searchReport, fetchedRecords,
      reader.event, searchCmd, fetchCmd, storeCmd, reader.emailsFromResponse, emailsLoop, next_opts]
  case A8 =>
    intro res ems h1 h2 h3 hne h4 h5
    apply listTail_elim c _ m _ ems (fun t =>
      allSucceeded (issued r t.2) = true →
      searchReport (issued r t.2) = some results →
      reader.emailsFromResponse (fetchedRecords (issued r t.2)) = .ret (emails, none) →
      commands (issued r t.2) =
        [Command.Select m true, Command.UIDSearch (quoteParams c.Quote p)]
          ++ (if results = [] then []
              else [Command.UIDFetch (some (NewSeqSet.AddNum results)) ["FLAGS", "BODY[]"]])
          ++ [Command.Close false]
          ++ (if r.opts.MarkSeen && decide (emails.length > 0) then
                [Command.Select m false,
                  Command.UIDStore (some (NewSeqSet.AddNum results)) "+FLAGS.SILENT" ["\\Seen"],
                  Command.Close false]
              else []) ∧
      t.1 = .ret (emails, none)) _ _ _ _ rfl rfl rfl rfl
    all_goals intros
    all_goals simp_all [issued, next_trace, allSucceeded, commands, searchReport, fetchedRecords,
      reader.event, searchCmd, fetchCmd, storeCmd, reader.emailsFromResponse, next_opts]
  all_goals intros
  all_goals simp_all [issued, next_trace, allSucceeded, commands, searchReport, fetchedRecords,
      reader.event, searchCmd, fetchCmd, storeCmd, reader.emailsFromResponse]



/-- C1, as amended: a run of `List` in which every transport command
succeeds, the search answer carries a response (reporting `results`) and
every record of the fetch answer gives an email issues exactly: select
read-only, UID search of the quoted criteria, UID fetch of FLAGS and BODY[]
only when `results` is not empty, close without expunge, and then, exactly
when `MarkSeen` is set and at least one message was fetched, select writable,
UID store `+FLAGS.SILENT \Seen`, close without expunge.  Fetch and store
target the set built from `results`, and `List` returns the emails and no
error. -/
theorem List_command_sequence {σ : Type} (c : Client σ) (r : reader σ) (mailbox : String)
    (params : List Field) (results : List Nat) (emails : List Email)
    (hall : allSucceeded (issued r (reader.List c r mailbox params).2.1) = true)
    (hsearch : searchReport (issued r (reader.List c r mailbox params).2.1) = some results)
    (hparse : List.Forall₂ (fun d em => newEmail d = .ret (.ok em))
      (fetchedRecords (issued r (reader.List c r mailbox params).2.1)) emails) :
    commands (issued r (reader.List c r mailbox params).2.1) =
      [Command.Select mailbox true, Command.UIDSearch (quoteParams c.Quote params)]
        ++ (if results = [] then []
            else [Command.UIDFetch (some (NewSeqSet.AddNum results)) ["FLAGS", "BODY[]"]])
        ++ [Command.Close false]
        ++ (if r.opts.MarkSeen && decide (emails.length > 0) then
              [Command.Select mailbox false,
                Command.UIDStore (some (NewSeqSet.AddNum results)) "+FLAGS.SILENT" ["\\Seen"],
                Command.Close false]
            else []) ∧
    (reader.List c r mailbox params).1 = .ret (emails, none) := by
  have h := emailsLoop_ok _ emails [] hparse
  exact List_success_core c r mailbox params results emails hall hsearch
    (by simpa [reader.emailsFromResponse] using h)

/-- Witness of C1: the mailbox of the tests, `MarkSeen` set. -/
theorem List_command_sequence_witness :
    commands (issued (readerOn (optsWith true) freshMailbox)
        (reader.List refClient (readerOn (optsWith true) freshMailbox) "MBOX" SearchUnseen).2.1) =
      [Command.Select "MBOX" true, Command.UIDSearch [.str "UNSEEN"],
        Command.UIDFetch (some ⟨[1]⟩) ["FLAGS", "BODY[]"], Command.Close false,
        Command.Select "MBOX" false, Command.UIDStore (some ⟨[1]⟩) "+FLAGS.SILENT" ["\\Seen"],
        Command.Close false] ∧
    (reader.List refClient (readerOn (optsWith true) freshMailbox) "MBOX" SearchUnseen).1 =
      .ret ([freshEmail], none) :=
  List_command_sequence refClient (readerOn (optsWith true) freshMailbox) "MBOX" SearchUnseen
    [1] [freshEmail] rfl rfl (List.Forall₂.cons rfl List.Forall₂.nil)

/-- Counterexample to C1 as stated: every transport command succeeds, the
fetched record does not parse; `List` returns an error and no message, and
issues no close. -/
theorem List_parse_failure_breaks_sequence :
    allSucceeded (issued parseFails
        (reader.List (scripted quoteWrap) parseFails "INBOX" SearchUnseen).2.1) = true ∧
    (reader.List (scripted quoteWrap) parseFails "INBOX" SearchUnseen).1 =
      .ret ([], some "malformed MIME header line") ∧
    commands (issued parseFails
        (reader.List (scripted quoteWrap) parseFails "INBOX" SearchUnseen).2.1) =
      [Command.Select "INBOX" true, Command.UIDSearch [.str "UNSEEN"],
        Command.UIDFetch (some ⟨[5]⟩) ["FLAGS", "BODY[]"]] :=
  ⟨rfl, rfl, rfl⟩

/-- The run of `List` when the search reports no identifier: select, search,
close, and the result is the empty sequence with the error of the close. -/
theorem no_match_run {σ : Type} (c : Client σ) (r : reader σ) (mailbox : String)
    (params : List Field) (D1 D2 : List Response) (d : Response) (s1 s2 : σ)
    (hselect : c.send r.client (.Select mailbox true) = (.ok ⟨D1, none⟩, s1))
    (hsearch : c.send s1 (.UIDSearch (quoteParams c.Quote params)) = (.ok ⟨d :: D2, none⟩, s2))
    (hnone : d.SearchResults = []) :
    ((r.next c (.Select mailbox true)).search c params).1 = .ret (none, none) ∧
    commands (issued r (reader.List c r mailbox params).2.1) =
      [Command.Select mailbox true, Command.UIDSearch (quoteParams c.Quote params),
        Command.Close false] ∧
    (reader.List c r mailbox params).1 =
      .ret ([], (⟨.Close false, (c.send s2 (.Close false)).1⟩ : Event).error) ∧
    (∀ D3 s3, c.send s2 (.Close false) = (.ok ⟨D3, none⟩, s3) →
      (reader.List c r mailbox params).1 = .ret ([], none)) := by
  obtain ⟨he1, herr1, hs1⟩ := event_ok c r _ D1 s1 hselect
  have hsend2 : c.send (r.next c (.Select mailbox true)).client
      (.UIDSearch (quoteParams c.Quote params)) = (.ok ⟨d :: D2, none⟩, s2) := by
    rw [hs1, hsearch]
  obtain ⟨he2, herr2, hs2⟩ := event_ok c (r.next c (.Select mailbox true)) _ (d :: D2) s2 hsend2
  have hrep : searchReport [(r.next c (.Select mailbox true)).event c
      (.UIDSearch (quoteParams c.Quote params))] = some [] := by
    rw [he2]
    simp [searchReport, hnone]
  have hstep : ((r.next c (.Select mailbox true)).search c params).1 = .ret (none, none) := by
    rw [search_fst, herr2]
    simp only [hrep]
    rfl
  have hmain : commands (issued r (reader.List c r mailbox params).2.1) =
      [Command.Select mailbox true, Command.UIDSearch (quoteParams c.Quote params),
        Command.Close false] ∧
      (reader.List c r mailbox params).1 =
        .ret ([], (⟨.Close false, (c.send s2 (.Close false)).1⟩ : Event).error) := by
    apply List_elim c r mailbox params (fun out =>
      commands (issued r out.2.1) =
        [Command.Select mailbox true, Command.UIDSearch (quoteParams c.Quote params),
          Command.Close false] ∧
      out.1 = .ret ([], (⟨Command.Close false, (c.send s2 (Command.Close false)).1⟩ : Event).error))
      _ _ rfl rfl
    case A4 =>
      intro h1 h2 h3
      apply listTail_elim c _ mailbox none [] (fun t =>
        commands (issued r t.2) =
          [Command.Select mailbox true, Command.UIDSearch (quoteParams c.Quote params),
            Command.Close false] ∧
        t.1 = .ret ([], (⟨Command.Close false, (c.send s2 (Command.Close false)).1⟩ : Event).error))
        _ _ _ _ rfl rfl rfl rfl
      all_goals intros
      all_goals simp_all [issued, next_trace, commands, reader.event, searchCmd, next_opts]
    all_goals intros
    all_goals simp_all [searchCmd]
  refine ⟨hstep, hmain.1, hmain.2, ?_⟩
  intro D3 s3 h3
  rw [hmain.2, h3]
  rfl

/-- C3, as amended: when the select succeeds and the search succeeds with a
response that reports no identifier, the search step yields no identifier set
and no error, the commands `List` issues are exactly select read-only, search,
close (no fetch, no writable select, no store), and `List` returns an empty
sequence together with the error of the close: no error when the close
succeeds. -/
theorem List_no_match {σ : Type} (c : Client σ) (r : reader σ) (mailbox : String)
    (params : List Field) (D1 D2 : List Response) (d : Response) (s1 s2 : σ)
    (hselect : c.send r.client (.Select mailbox true) = (.ok ⟨D1, none⟩, s1))
    (hsearch : c.send s1 (.UIDSearch (quoteParams c.Quote params)) = (.ok ⟨d :: D2, none⟩, s2))
    (hnone : d.SearchResults = []) :
    ((r.next c (.Select mailbox true)).search c params).1 = .ret (none, none) ∧
    commands (issued r (reader.List c r mailbox params).2.1) =
      [Command.Select mailbox true, Command.UIDSearch (quoteParams c.Quote params),
        Command.Close false] ∧
    (reader.List c r mailbox params).1 =
      .ret ([], (⟨.Close false, (c.send s2 (.Close false)).1⟩ : Event).error) ∧
    (∀ D3 s3, c.send s2 (.Close false) = (.ok ⟨D3, none⟩, s3) →
      (reader.List c r mailbox params).1 = .ret ([], none)) :=
  no_match_run c r mailbox params D1 D2 d s1 s2 hselect hsearch hnone

/-- Witness of C3: the search finds nothing and the close succeeds. -/
theorem List_no_match_witness :
    (reader.List (scripted quoteWrap) noMatch "INBOX" SearchUnseen).1 = .ret ([], none) :=
  (List_no_match (scripted quoteWrap) noMatch "INBOX" SearchUnseen [] [] (.search [])
    [okWith [.search []], okWith []] [okWith []] rfl rfl rfl).2.2.2 [] [] rfl

/-- Counterexample to C3 as stated: the search succeeds and reports no
identifier, the close fails; `List` returns the error of the close, not
`nil`. -/
theorem close_error_after_empty_search :
    allSucceeded ((issued closeFails
        (reader.List (scripted quoteWrap) closeFails "INBOX" SearchUnseen).2.1).take 2) = true ∧
    searchReport (issued closeFails
        (reader.List (scripted quoteWrap) closeFails "INBOX" SearchUnseen).2.1) = some [] ∧
    (reader.List (scripted quoteWrap) closeFails "INBOX" SearchUnseen).1 =
      .ret ([], some "NO close refused") :=
  ⟨rfl, rfl, rfl⟩



/-! ## The criteria -/

/-- The quoted criteria, by length. -/
theorem quoteParams_cases (Q : Field → Field) (p : List Field) :
    (quoteParams Q p).length = p.length ∧
    (2 ≤ p.length → quoteParams Q p = p.take 1 ++ (p.drop 1).map Q) ∧
    (p.length ≤ 1 → quoteParams Q p = p) := by
  rw [quoteParams_eq_quoteTail]
  match p with
  | [] => simp [quoteTail]
  | [a] => simp [quoteTail]
  | a :: b :: t => simp [quoteTail]

/-- The one command `search` issues. -/
theorem search_commands {σ : Type} (c : Client σ) (r : reader σ) (p : List Field) :
    commands (issued r (r.search c p).2.1) = [Command.UIDSearch (quoteParams c.Quote p)] := by
  rw [search_snd]
  simp [issued, next_trace, commands, reader.event]

/-- C6: the token sequence `search` transmits for criteria `p` has the length
of `p`; for two tokens or more it is the first token unchanged followed by the
quoted form of every later token, in order; for at most one token it is `p`
unchanged.  So `BySubject s` goes out as `SUBJECT`, `Quote s`, `ByFrom a` as
`FROM`, `Quote a`, and every predefined constant as its keyword, unquoted. -/
theorem search_transmits {σ : Type} (c : Client σ) (r : reader σ) (p : List Field) :
    (∃ tokens, commands (issued r (r.search c p).2.1) = [Command.UIDSearch tokens] ∧
      tokens.length = p.length ∧
      (2 ≤ p.length → tokens = p.take 1 ++ (p.drop 1).map c.Quote) ∧
      (p.length ≤ 1 → tokens = p)) ∧
    (∀ s, commands (issued r (r.search c (BySubject s)).2.1) =
      [Command.UIDSearch [.str "SUBJECT", c.Quote (.str s)]]) ∧
    (∀ a, commands (issued r (r.search c (ByFrom a)).2.1) =
      [Command.UIDSearch [.str "FROM", c.Quote (.str a)]]) ∧
    (∀ k ∈ [SearchUnseen, SearchAll, SearchAnswered, SearchUnanswered, SearchDeleted,
        SearchUndeleted, SearchFlagged, SearchUnflagged, SearchNew, SearchOld, SearchRecent,
        SearchSeen],
      k.length = 1 ∧ commands (issued r (r.search c k).2.1) = [Command.UIDSearch k]) := by
  obtain ⟨h1, h2, h3⟩ := quoteParams_cases c.Quote p
  refine ⟨⟨quoteParams c.Quote p, search_commands c r p, h1, h2, h3⟩, ?_, ?_, ?_⟩
  · intro s
    rw [search_commands, (quoteParams_cases c.Quote (BySubject s)).2.1 (by simp [BySubject])]
    rfl
  · intro a
    rw [search_commands, (quoteParams_cases c.Quote (ByFrom a)).2.1 (by simp [ByFrom])]
    rfl
  · intro k hk
    have hlen : k.length = 1 := by
      simp only [List.mem_cons, List.mem_singleton, List.not_mem_nil, or_false] at hk
      rcases hk with h | h | h | h | h | h | h | h | h | h | h | h <;> (subst h; rfl)
    refine ⟨hlen, ?_⟩
    rw [search_commands, (quoteParams_cases c.Quote k).2.2 (by omega)]

/-- Witness of C6: a search by subject, and a predefined constant. -/
theorem search_transmits_witness :
    (∃ tokens, commands (issued noMatch
        (reader.search (scripted quoteWrap) noMatch (BySubject "Fancy ponies")).2.1) =
        [Command.UIDSearch tokens] ∧
      tokens = [.str "SUBJECT", .str "\"Fancy ponies\""]) ∧
    (∃ tokens, commands (issued noMatch
        (reader.search (scripted quoteWrap) noMatch SearchAll).2.1) =
        [Command.UIDSearch tokens] ∧
      tokens = [.str "ALL"]) ∧
    commands (issued noMatch (reader.search (scripted quoteWrap) noMatch SearchAll).2.1) =
      [Command.UIDSearch [.str "ALL"]] := by
  obtain ⟨tokens, h1, _, h3, _⟩ :=
    (search_transmits (scripted quoteWrap) noMatch (BySubject "Fancy ponies")).1
  obtain ⟨tokens2, k1, _, _, k4⟩ :=
    (search_transmits (scripted quoteWrap) noMatch SearchAll).1
  exact ⟨⟨tokens, h1, h3 (by decide)⟩, ⟨tokens2, k1, k4 (by decide)⟩,
    ((search_transmits (scripted quoteWrap) noMatch SearchAll).2.2.2 SearchAll
      (List.mem_cons_of_mem _ (List.mem_cons_self _ _))).2⟩

/-- When the read-only select succeeds, `List` leaves the quoted criteria in
the caller's slice, and its second command is the search for them. -/
theorem List_search_command {σ : Type} (c : Client σ) (r : reader σ) (m : String)
    (p : List Field) :
    (r.event c (.Select m true)).error = none →
      (reader.List c r m p).2.2 = quoteParams c.Quote p ∧
      (commands (issued r (reader.List c r m p).2.1))[1]? =
        some (Command.UIDSearch (quoteParams c.Quote p)) := by
  apply List_elim c r m p (fun out =>
    (r.event c (Command.Select m true)).error = none →
      out.2.2 = quoteParams c.Quote p ∧
      (commands (issued r out.2.1))[1]? = some (Command.UIDSearch (quoteParams c.Quote p)))
    _ _ rfl rfl
  case A4 =>
    intro h1 h2 h3
    apply listTail_elim c _ m none [] (fun t =>
      (r.event c (Command.Select m true)).error = none →
        quoteParams c.Quote p = quoteParams c.Quote p ∧
        (commands (issued r t.2))[1]? = some (Command.UIDSearch (quoteParams c.Quote p)))
      _ _ _ _ rfl rfl rfl rfl
    all_goals intros
    all_goals simp [issued, next_trace, commands, reader.event, searchCmd]
  case A8 =>
    intro res ems h1 h2 h3 hne h4 h5
    apply listTail_elim c _ m _ ems (fun t =>
      (r.event c (Command.Select m true)).error = none →
        quoteParams c.Quote p = quoteParams c.Quote p ∧
        (commands (issued r t.2))[1]? = some (Command.UIDSearch (quoteParams c.Quote p)))
      _ _ _ _ rfl rfl rfl rfl
    all_goals intros
    all_goals simp [issued, next_trace, commands, reader.event, searchCmd]
  case A1 =>
    intro err h1 h2
    rw [h1] at h2
    exact absurd h2 (by simp)
  all_goals intros
  all_goals simp [issued, next_trace, commands, reader.event, searchCmd]

/-- Escaping does not shorten. -/
theorem escapeQuoted_length (l : Bytes) : l.length ≤ (escapeQuoted l).length := by
  induction l with
  | nil => simp [escapeQuoted]
  | cons c cs ih =>
    unfold escapeQuoted
    split
    · simp only [List.length_cons]
      omega
    · simp only [List.length_cons]
      omega

/-- Quoting a string once and quoting it twice give different tokens. -/
theorem quoteWrap_twice_ne (s : String) :
    quoteWrap (quoteWrap (.str s)) ≠ quoteWrap (.str s) := by
  by_cases h : s.data.all quotable = true
  · have h1 : quoteWrap (.str s)
        = .str (String.mk ('\x22' :: escapeQuoted s.data ++ ['\x22'])) := by
      simp only [quoteWrap, if_pos h]
    rw [h1]
    by_cases h2 : (String.mk ('\x22' :: escapeQuoted s.data ++ ['\x22'])).data.all quotable = true
    · simp only [quoteWrap, if_pos h2]
      intro heq
      have hd := congrArg List.length (congrArg String.data (Field.str.inj heq))
      have hl := escapeQuoted_length ('\x22' :: escapeQuoted s.data ++ ['\x22'])
      simp only [List.length_cons, List.length_append, List.length_nil] at hd hl
      omega
    · simp only [quoteWrap, if_neg h2]
      intro heq
      exact Field.noConfusion heq
  · have h1 : quoteWrap (.str s) = .literal ⟨s.data, none⟩ := by
      simp only [quoteWrap, if_neg h]
    rw [h1]
    intro heq
    exact Field.noConfusion heq

/-- C10, as amended: `search` writes its quoting into the caller's criteria:
afterwards the slice has its length unchanged, and for two tokens or more it
holds the first token unchanged and the quoted form of every later one; a
slice of at most one token is left as it is.  So two `List` calls on one
two-token criteria value, each getting as far as its search, transmit
`Quote a` the first time and `Quote (Quote a)` the second, and the two
searches differ exactly when `Quote (Quote a)` differs from `Quote a`.  With
the quoting of the transport that is so for every string. -/
theorem search_rewrites_criteria {σ : Type} (c : Client σ) (r : reader σ) (p : List Field) :
    (r.search c p).2.2.length = p.length ∧
    (2 ≤ p.length → (r.search c p).2.2 = p.take 1 ++ (p.drop 1).map c.Quote) ∧
    (p.length ≤ 1 → (r.search c p).2.2 = p) ∧
    (∀ mailbox kw a,
      (r.event c (.Select mailbox true)).error = none →
      ((reader.List c r mailbox [kw, a]).2.1.event c (.Select mailbox true)).error = none →
      (reader.List c r mailbox [kw, a]).2.2 = [kw, c.Quote a] ∧
      (commands (issued r (reader.List c r mailbox [kw, a]).2.1))[1]? =
        some (Command.UIDSearch [kw, c.Quote a]) ∧
      (commands (issued (reader.List c r mailbox [kw, a]).2.1
        (reader.List c (reader.List c r mailbox [kw, a]).2.1 mailbox
          (reader.List c r mailbox [kw, a]).2.2).2.1))[1]? =
        some (Command.UIDSearch [kw, c.Quote (c.Quote a)]) ∧
      (Command.UIDSearch [kw, c.Quote a] ≠ Command.UIDSearch [kw, c.Quote (c.Quote a)] ↔
        c.Quote (c.Quote a) ≠ c.Quote a)) ∧
    (∀ s : String, quoteWrap (quoteWrap (.str s)) ≠ quoteWrap (.str s)) := by
  obtain ⟨h1, h2, h3⟩ := quoteParams_cases c.Quote p
  rw [search_snd]
  refine ⟨h1, h2, h3, ?_, quoteWrap_twice_ne⟩
  intro mailbox kw a hs1 hs2
  have hq : ∀ x, quoteParams c.Quote [kw, x] = [kw, c.Quote x] := by
    intro x
    rw [(quoteParams_cases c.Quote [kw, x]).2.1 (by simp)]
    rfl
  obtain ⟨hp1, hc1⟩ := List_search_command c r mailbox [kw, a] hs1
  rw [hq] at hp1 hc1
  obtain ⟨_, hc2⟩ := List_search_command c _ mailbox [kw, c.Quote a] hs2
  rw [hq] at hc2
  refine ⟨hp1, hc1, ?_, ?_⟩
  · rw [hp1]
    exact hc2
  · simp only [ne_eq, Command.UIDSearch.injEq, List.cons.injEq, and_true, true_and]
    exact ⟨fun h heq => h heq.symm, fun h heq => h heq.symm⟩

/-- Witness of C10: one `BySubject` value used for two `List` calls goes out
quoted once, then quoted twice. -/
theorem search_rewrites_criteria_witness :
    (reader.search (scripted quoteWrap) twoSearches SearchUnseen).2.2 = SearchUnseen ∧
    (reader.search (scripted quoteWrap) twoSearches (BySubject "Fancy")).2.2 =
      [.str "SUBJECT", .str "\"Fancy\""] ∧
    (commands (issued twoSearches
      (reader.List (scripted quoteWrap) twoSearches "INBOX" (BySubject "Fancy")).2.1))[1]? =
        some (Command.UIDSearch [.str "SUBJECT", .str "\"Fancy\""]) ∧
    (commands (issued
      (reader.List (scripted quoteWrap) twoSearches "INBOX" (BySubject "Fancy")).2.1
      (reader.List (scripted quoteWrap)
        (reader.List (scripted quoteWrap) twoSearches "INBOX" (BySubject "Fancy")).2.1 "INBOX"
        (reader.List (scripted quoteWrap) twoSearches "INBOX" (BySubject "Fancy")).2.2).2.1))[1]? =
        some (Command.UIDSearch [.str "SUBJECT", .str "\"\\\"Fancy\\\"\""]) ∧
    Command.UIDSearch [.str "SUBJECT", .str "\"Fancy\""] ≠
      Command.UIDSearch [.str "SUBJECT", .str "\"\\\"Fancy\\\"\""] := by
  obtain ⟨_, h2, _, h4, h5⟩ :=
    search_rewrites_criteria (scripted quoteWrap) twoSearches (BySubject "Fancy")
  obtain ⟨_, hc1, hc2, hdiff⟩ := h4 "INBOX" (.str "SUBJECT") (.str "Fancy") rfl rfl
  exact ⟨(search_rewrites_criteria (scripted quoteWrap) twoSearches SearchUnseen).2.2.1
      (by decide),
    h2 (by decide), hc1, hc2, hdiff.mpr (h5 "Fancy")⟩

/-- Counterexample to C10 as stated: the number `5` is quoted to `nil`, which
differs from it, and `nil` is quoted to `nil`; the two `List` calls transmit
the same search. -/
theorem same_search_twice :
    quoteWrap (.num 5) ≠ .num 5 ∧
    (commands (issued twoSearches
      (reader.List (scripted quoteWrap) twoSearches "INBOX" [.str "LARGER", .num 5]).2.1))[1]? =
        some (Command.UIDSearch [.str "LARGER", .nil]) ∧
    (commands (issued
      (reader.List (scripted quoteWrap) twoSearches "INBOX" [.str "LARGER", .num 5]).2.1
      (reader.List (scripted quoteWrap)
        (reader.List (scripted quoteWrap) twoSearches "INBOX" [.str "LARGER", .num 5]).2.1
        "INBOX"
        (reader.List (scripted quoteWrap) twoSearches "INBOX"
          [.str "LARGER", .num 5]).2.2).2.1))[1]? =
        some (Command.UIDSearch [.str "LARGER", .nil]) :=
  ⟨by decide, rfl, rfl⟩

/-! ## The reference mailbox -/

/-- The UNSEEN criteria are one token and go out as they are. -/
theorem ref_quote_unseen : quoteParams refClient.Quote SearchUnseen = SearchUnseen := rfl

/-- Selecting on the reference server. -/
theorem ref_select (r : reader RefServer) (m : String) (ro : Bool) :
    (r.event refClient (.Select m ro)).error =
        (if m = r.client.name then none else some "NO no such mailbox") ∧
    (r.next refClient (.Select m ro)).client =
        (if m = r.client.name then
          { r.client with state := if ro then .SelectedReadOnly else .SelectedReadWrite }
        else { r.client with state := .Unselected }) := by
  by_cases h : m = r.client.name <;>
    simp [reader.event, reader.next, reader.call, refClient, RefServer.send, h, Event.error,
      reader.exec, okWith, notOK]

/-- Closing on the reference server. -/
theorem ref_close (r : reader RefServer) (h : r.client.state ≠ .Unselected) :
    (r.event refClient (.Close false)).error = none ∧
    (r.next refClient (.Close false)).client = { r.client with state := .Unselected } := by
  simp [reader.event, reader.next, reader.call, refClient, RefServer.send, h, Event.error,
    reader.exec, okWith]

/-- Searching the unseen messages on the reference server. -/
theorem ref_search (r : reader RefServer) (h : r.client.state ≠ .Unselected) :
    r.event refClient (.UIDSearch SearchUnseen) =
      ⟨.UIDSearch SearchUnseen, okWith [.search (r.client.unseen.map RefMessage.UID)]⟩ ∧
    (r.next refClient (.UIDSearch SearchUnseen)).client = r.client := by
  simp [reader.event, reader.next, reader.call, refClient, RefServer.send, h, okWith,
    SearchUnseen, RefServer.matching, RefServer.unseen]

/-- Fetching in a read-only selection on the reference server. -/
theorem ref_fetch (r : reader RefServer) (S : SeqSet) (h : r.client.state = .SelectedReadOnly) :
    r.event refClient (.UIDFetch (some S) ["FLAGS", "BODY[]"]) =
      ⟨.UIDFetch (some S) ["FLAGS", "BODY[]"],
        okWith ((r.client.messages.filter (fun m => S.nums.contains m.UID)).map
          RefMessage.record)⟩ ∧
    (r.next refClient (.UIDFetch (some S) ["FLAGS", "BODY[]"])).client = r.client := by
  simp [reader.event, reader.next, reader.call, refClient, RefServer.send, h, okWith]

/-- Storing `\Seen` in a writable selection on the reference server. -/
theorem ref_store (r : reader RefServer) (S : SeqSet) (h : r.client.state = .SelectedReadWrite) :
    (r.event refClient (.UIDStore (some S) "+FLAGS.SILENT" ["\\Seen"])).error = none ∧
    (r.next refClient (.UIDStore (some S) "+FLAGS.SILENT" ["\\Seen"])).client =
      { r.client with messages := r.client.flagged S ["\\Seen"] } := by
  simp [reader.event, reader.next, reader.call, refClient, RefServer.send, h, okWith,
    Event.error, reader.exec]


/-- Membership test of a list of numbers. -/
theorem contains_nat_iff (l : List Nat) (a : Nat) : l.contains a = true ↔ a ∈ l := by
  simp

/-- Adding `\Seen` makes a message seen. -/
theorem addFlags_seen (m : RefMessage) : (m.addFlags ["\\Seen"]).unseen = false := by
  by_cases h : "\\Seen" ∈ m.Flags <;> simp [RefMessage.addFlags, RefMessage.unseen, h]

/-- With distinct UIDs, the messages whose UID an UNSEEN search returned are
the unseen messages. -/
theorem ref_fetched_unseen (s : RefServer) (hu : (s.messages.map RefMessage.UID).Nodup) :
    s.messages.filter (fun m => (s.unseen.map RefMessage.UID).contains m.UID) = s.unseen := by
  unfold RefServer.unseen
  apply List.filter_congr
  intro m hm
  by_cases hun : m.unseen = true
  · rw [hun]
    rw [contains_nat_iff]
    simp only [List.mem_map, List.mem_filter]
    exact ⟨m, ⟨hm, hun⟩, rfl⟩
  · have hf : m.unseen = false := by simpa using hun
    rw [hf]
    apply Bool.eq_false_iff.mpr
    intro hc
    rw [contains_nat_iff] at hc
    simp only [List.mem_map, List.mem_filter] at hc
    obtain ⟨m2, ⟨hm2, hun2⟩, huid⟩ := hc
    have : m2 = m := List.inj_on_of_nodup_map hu hm2 hm huid
    rw [this] at hun2
    exact hun hun2

/-- After `\Seen` was stored on the UIDs of all unseen messages, no message is
unseen. -/
theorem ref_flagged_unseen (s : RefServer) :
    ({ s with messages := s.flagged ⟨s.unseen.map RefMessage.UID⟩ ["\\Seen"] } :
      RefServer).unseen = [] := by
  unfold RefServer.unseen RefServer.flagged
  simp only
  rw [List.filter_eq_nil_iff]
  intro m hm
  simp only [List.mem_map] at hm
  obtain ⟨m0, hm0, rfl⟩ := hm
  by_cases hc : (s.messages.filter RefMessage.unseen |>.map RefMessage.UID).contains m0.UID = true
  · rw [if_pos hc, addFlags_seen]
    simp
  · rw [if_neg hc]
    intro hun
    apply hc
    rw [contains_nat_iff]
    simp only [List.mem_map, List.mem_filter]
    exact ⟨m0, ⟨hm0, hun⟩, rfl⟩


/-- On the reference server, from a read-only selection, the tail of `List`
without a mark-seen phase closes the mailbox and returns the emails. -/
theorem ref_listTail_plain (r3 : reader RefServer) (m : String) (set : Option SeqSet)
    (ems : List Email) (hst : r3.client.state = .SelectedReadOnly)
    (hm : (r3.opts.MarkSeen && decide (ems.length > 0)) = false) :
    (r3.listTail refClient m set ems).1 = .ret (ems, none) ∧
    (r3.listTail refClient m set ems).2.client = { r3.client with state := .Unselected } := by
  have hc := ref_close r3 (by rw [hst]; decide)
  apply listTail_elim refClient r3 m set ems (fun t =>
    t.1 = .ret (ems, none) ∧ t.2.client = { r3.client with state := .Unselected })
    _ _ _ _ rfl rfl rfl rfl
  case B1 =>
    intro err h
    rw [hc.1] at h
    exact absurd h (by simp)
  case B2 =>
    intro _ _
    exact ⟨rfl, hc.2⟩
  all_goals
    intros
    simp_all

/-- On the reference server, from a read-only selection of the mailbox `m`,
the tail of `List` with a mark-seen phase stores `\Seen` on the set, closes
the mailbox and returns the emails. -/
theorem ref_listTail_mark (r3 : reader RefServer) (m : String) (S : SeqSet)
    (ems : List Email) (hname : m = r3.client.name) (hst : r3.client.state = .SelectedReadOnly)
    (hm : (r3.opts.MarkSeen && decide (ems.length > 0)) = true) :
    (r3.listTail refClient m (some S) ems).1 = .ret (ems, none) ∧
    (r3.listTail refClient m (some S) ems).2.client =
      { r3.client with messages := r3.client.flagged S ["\\Seen"], state := .Unselected } := by
  have h4 := ref_close r3 (by rw [hst]; decide)
  have h5 := ref_select (r3.next refClient (.Close false)) m false
  rw [h4.2] at h5
  simp only [if_pos hname, Bool.false_eq_true, if_false] at h5
  have h6 := ref_store ((r3.next refClient (.Close false)).next refClient (.Select m false)) S
    (by rw [h5.2])
  rw [h5.2] at h6
  have h7 := ref_close (((r3.next refClient (.Close false)).next refClient
    (.Select m false)).next refClient (.UIDStore (some S) "+FLAGS.SILENT" ["\\Seen"]))
    (by rw [h6.2]; simp)
  rw [h6.2] at h7
  apply listTail_elim refClient r3 m (some S) ems (fun t =>
    t.1 = .ret (ems, none) ∧ t.2.client =
      { r3.client with messages := r3.client.flagged S ["\\Seen"], state := .Unselected })
    _ _ _ _ rfl rfl rfl rfl
  case B6 =>
    intro _ _ _ _ _
    refine ⟨rfl, ?_⟩
    unfold storeCmd
    rw [h7.2]
    rfl
  case B1 =>
    intro err h
    rw [h4.1] at h
    exact absurd h (by simp)
  case B2 =>
    intro _ h
    rw [hm] at h
    exact absurd h (by simp)
  case B3 =>
    intro err _ _ h
    rw [h5.1] at h
    exact absurd h (by simp)
  case B4 =>
    intro err _ _ _ h
    unfold storeCmd at h
    rw [h6.1] at h
    exact absurd h (by simp)
  case B5 =>
    intro err _ _ _ _ h
    unfold storeCmd at h
    rw [h7.1] at h
    exact absurd h (by simp)


/-- The set built from search results holds these results. -/
theorem AddNum_new (results : List Nat) : NewSeqSet.AddNum results = ⟨results⟩ := by
  simp [NewSeqSet, SeqSet.AddNum]

/-- The messages the reference server fetches for the UIDs of an UNSEEN
search. -/
theorem ref_fetched_mem (s : RefServer) (m : RefMessage) (hm : m ∈ s.unseen) :
    m ∈ s.messages.filter (fun m => (s.unseen.map RefMessage.UID).contains m.UID) := by
  have hm2 := hm
  unfold RefServer.unseen at hm2
  rw [List.mem_filter] at hm2
  rw [List.mem_filter, contains_nat_iff]
  exact ⟨hm2.1, List.mem_map_of_mem _ hm⟩

/-- Related lists: every element on the left has a partner on the right. -/
theorem forall₂_partner {α β : Type} (R : α → β → Prop) (l1 : List α) (l2 : List β)
    (h : List.Forall₂ R l1 l2) (a : α) (ha : a ∈ l1) : ∃ b ∈ l2, R a b := by
  induction h with
  | nil => simp at ha
  | cons hab _ ih =>
    rcases List.mem_cons.mp ha with h1 | h1
    · subst h1
      exact ⟨_, List.mem_cons_self _ _, hab⟩
    · obtain ⟨b, hb, hr⟩ := ih h1
      exact ⟨b, List.mem_cons_of_mem _ hb, hr⟩

/-- A successful `List` for UNSEEN on the reference server, `MarkSeen` set:
the mailbox is the server's, the emails are those of the messages fetched for
the UIDs of the unseen messages, and afterwards no message is unseen. -/
theorem ref_first_run (r : reader RefServer) (mailbox : String) (emails : List Email)
    (hmark : r.opts.MarkSeen = true) :
    (reader.List refClient r mailbox SearchUnseen).1 = .ret (emails, none) →
    mailbox = r.client.name ∧
    List.Forall₂ (fun m em => newEmail m.record = .ret (.ok em))
      (r.client.messages.filter
        (fun m => (r.client.unseen.map RefMessage.UID).contains m.UID)) emails ∧
    (reader.List refClient r mailbox SearchUnseen).2.1.client.name = r.client.name ∧
    (reader.List refClient r mailbox SearchUnseen).2.1.client.unseen = [] ∧
    (reader.List refClient r mailbox SearchUnseen).2.2 = SearchUnseen := by
  have hsel := ref_select r mailbox true
  apply List_elim refClient r mailbox SearchUnseen (fun out =>
    out.1 = .ret (emails, none) →
    mailbox = r.client.name ∧
    List.Forall₂ (fun m em => newEmail m.record = .ret (.ok em))
      (r.client.messages.filter
        (fun m => (r.client.unseen.map RefMessage.UID).contains m.UID)) emails ∧
    out.2.1.client.name = r.client.name ∧
    out.2.1.client.unseen = [] ∧
    out.2.2 = SearchUnseen) _ _ rfl rfl
  case A4 =>
    intro h1 h2 h3 hret
    have hname : mailbox = r.client.name := by
      by_contra hn
      rw [hsel.1, if_neg hn] at h1
      exact absurd h1 (by simp)
    have hc1 := hsel.2
    rw [if_pos hname] at hc1
    simp only [if_true] at hc1
    have hs := ref_search (r.next refClient (.Select mailbox true)) (by rw [hc1]; simp)
    have hs1 : (r.next refClient (.Select mailbox true)).event refClient
        (searchCmd refClient SearchUnseen) = _ := hs.1
    have hs2 : ((r.next refClient (.Select mailbox true)).next refClient
        (searchCmd refClient SearchUnseen)).client = _ := hs.2
    rw [hs1] at h3
    simp only [searchReport, okWith, Response.SearchResults, Option.some.injEq, hc1,
      RefServer.unseen, List.map_eq_nil_iff] at h3
    have hun : r.client.unseen = [] := h3
    have ht := ref_listTail_plain ((r.next refClient (.Select mailbox true)).next refClient
      (searchCmd refClient SearchUnseen)) mailbox none []
      (by rw [hs2, hc1]) (by simp)
    simp only at hret
    rw [ht.1] at hret
    simp only [Run.ret.injEq, Prod.mk.injEq, and_true] at hret
    subst hret
    refine ⟨hname, ?_, ?_, ?_, rfl⟩
    · rw [hun]
      simp
    · simp only
      rw [ht.2, hs2, hc1]
    · simp only
      rw [ht.2, hs2, hc1]
      exact hun
  case A8 =>
    intro results ems h1 h2 h3 hne h4 h5 hret
    have hname : mailbox = r.client.name := by
      by_contra hn
      rw [hsel.1, if_neg hn] at h1
      exact absurd h1 (by simp)
    have hc1 := hsel.2
    rw [if_pos hname] at hc1
    simp only [if_true] at hc1
    have hs := ref_search (r.next refClient (.Select mailbox true)) (by rw [hc1]; simp)
    have hs1 : (r.next refClient (.Select mailbox true)).event refClient
        (searchCmd refClient SearchUnseen) = _ := hs.1
    have hs2 : ((r.next refClient (.Select mailbox true)).next refClient
        (searchCmd refClient SearchUnseen)).client = _ := hs.2
    rw [hs1] at h3
    simp only [searchReport, okWith, Response.SearchResults, Option.some.injEq, hc1,
      RefServer.unseen] at h3
    have hres : results = r.client.unseen.map RefMessage.UID := h3.symm
    have hf := ref_fetch ((r.next refClient (.Select mailbox true)).next refClient
      (searchCmd refClient SearchUnseen)) (NewSeqSet.AddNum results) (by rw [hs2, hc1])
    have hf1 : ((r.next refClient (.Select mailbox true)).next refClient
        (searchCmd refClient SearchUnseen)).event refClient
        (fetchCmd (NewSeqSet.AddNum results)) = _ := hf.1
    have hf2 : (((r.next refClient (.Select mailbox true)).next refClient
        (searchCmd refClient SearchUnseen)).next refClient
        (fetchCmd (NewSeqSet.AddNum results))).client = _ := hf.2
    rw [hf1] at h5
    simp only [fetchedRecords, okWith, hs2, hc1, AddNum_new, reader.emailsFromResponse] at h5
    rw [hres] at h5
    obtain ⟨ems2, hall, hems⟩ := emailsLoop_ok_inv _ _ _ h5
    simp only [List.nil_append] at hems
    subst hems
    have hall2 : List.Forall₂ (fun m em => newEmail m.record = .ret (.ok em))
        (r.client.messages.filter
          (fun m => (r.client.unseen.map RefMessage.UID).contains m.UID)) ems := by
      rw [List.forall₂_map_left_iff] at hall
      exact hall
    have hpos : 0 < ems.length := by
      cases hu : r.client.unseen with
      | nil =>
        exfalso
        apply hne
        rw [hres, hu]
        rfl
      | cons m0 t =>
        obtain ⟨em, hem, _⟩ := forall₂_partner _ _ _ hall2 m0
          (ref_fetched_mem r.client m0 (by rw [hu]; exact List.mem_cons_self _ _))
        exact List.length_pos_of_mem hem
    have ht := ref_listTail_mark (((r.next refClient (.Select mailbox true)).next refClient
      (searchCmd refClient SearchUnseen)).next refClient (fetchCmd (NewSeqSet.AddNum results)))
      mailbox (NewSeqSet.AddNum results) ems
      (by rw [hf2, hs2, hc1]; exact hname) (by rw [hf2, hs2, hc1])
      (by simp [next_opts, hmark, hpos])
    simp only at hret
    rw [ht.1] at hret
    simp only [Run.ret.injEq, Prod.mk.injEq, and_true] at hret
    subst hret
    refine ⟨hname, hall2, ?_, ?_, rfl⟩
    · simp only
      rw [ht.2, hf2, hs2, hc1]
    · simp only
      rw [ht.2, hf2, hs2, hc1, AddNum_new, hres]
      exact ref_flagged_unseen _
  all_goals
    intros
    rename_i hret
    exact absurd hret (by simp)



/-- On the reference server a `List` for UNSEEN on a mailbox without unseen
messages returns the empty sequence and no error. -/
theorem ref_second_run (r : reader RefServer) (mailbox : String)
    (hname : mailbox = r.client.name) (hun : r.client.unseen = []) :
    (reader.List refClient r mailbox SearchUnseen).1 = .ret ([], none) := by
  have h := no_match_run refClient r mailbox SearchUnseen [] []
    (.search (r.client.unseen.map RefMessage.UID))
    { r.client with state := .SelectedReadOnly } { r.client with state := .SelectedReadOnly }
    (by simp [refClient, RefServer.send, hname, okWith])
    (by
      rw [ref_quote_unseen]
      simp [refClient, RefServer.send, okWith, SearchUnseen, RefServer.matching,
        RefServer.unseen])
    (by simp [Response.SearchResults, hun])
  exact h.2.2.2 [] { r.client with state := .Unselected }
    (by simp [refClient, RefServer.send, okWith])

/-- C4: on the reference mailbox, with `MarkSeen` set, a successful `List`
for UNSEEN returns an email for every unseen message (with distinct UIDs: the
emails of the unseen messages, one each, in order); afterwards no message of
the mailbox is unseen, and a `List` for UNSEEN that follows at once on the
same mailbox (with the same criteria slice) returns the empty sequence and no
error. -/
theorem List_unseen_twice (r : reader RefServer) (mailbox : String) (emails : List Email)
    (hmark : r.opts.MarkSeen = true)
    (hfirst : (reader.List refClient r mailbox SearchUnseen).1 = .ret (emails, none)) :
    (∀ m ∈ r.client.unseen, ∃ em ∈ emails, newEmail m.record = .ret (.ok em)) ∧
    ((r.client.messages.map RefMessage.UID).Nodup →
      List.Forall₂ (fun m em => newEmail m.record = .ret (.ok em)) r.client.unseen emails ∧
      emails.length = r.client.unseen.length) ∧
    (reader.List refClient r mailbox SearchUnseen).2.1.client.unseen = [] ∧
    (reader.List refClient (reader.List refClient r mailbox SearchUnseen).2.1 mailbox
      (reader.List refClient r mailbox SearchUnseen).2.2).1 = .ret ([], none) := by
  obtain ⟨hname, hall, hn, hun, hp⟩ := ref_first_run r mailbox emails hmark hfirst
  refine ⟨?_, ?_, hun, ?_⟩
  · intro m hm
    exact forall₂_partner _ _ _ hall m (ref_fetched_mem r.client m hm)
  · intro huid
    rw [ref_fetched_unseen r.client huid] at hall
    exact ⟨hall, hall.length_eq.symm⟩
  · rw [hp]
    exact ref_second_run _ mailbox (by rw [hn]; exact hname) hun

/-- Witness of C4: one freshly appended message gives one email, then none. -/
theorem List_unseen_twice_witness :
    (reader.List refClient (readerOn (optsWith true) freshMailbox) "MBOX" SearchUnseen).1 =
      .ret ([freshEmail], none) ∧
    [freshEmail].length = freshMailbox.unseen.length ∧
    (reader.List refClient
      (reader.List refClient (readerOn (optsWith true) freshMailbox) "MBOX" SearchUnseen).2.1
      "MBOX"
      (reader.List refClient (readerOn (optsWith true) freshMailbox) "MBOX" SearchUnseen).2.2).1 =
      .ret ([], none) :=
  ⟨rfl,
    ((List_unseen_twice (readerOn (optsWith true) freshMailbox) "MBOX" [freshEmail] rfl
      rfl).2.1 (by decide)).2,
    (List_unseen_twice (readerOn (optsWith true) freshMailbox) "MBOX" [freshEmail] rfl
      rfl).2.2.2⟩

/-- Witness of C9: after a successful run the mailbox is unselected, and so
it is after the select of a mailbox that does not exist. -/
theorem List_mailbox_state_witness :
    MailboxState.after effectsKeep .Unselected (issued (readerOn (optsWith true) freshMailbox)
      (reader.List refClient (readerOn (optsWith true) freshMailbox) "MBOX" SearchUnseen).2.1) =
      .Unselected ∧
    MailboxState.after effectsKeep .Unselected (issued (readerOn (optsWith true) freshMailbox)
      (reader.List refClient (readerOn (optsWith true) freshMailbox) "NOPE" SearchUnseen).2.1) =
      .Unselected :=
  ⟨(List_mailbox_state effectsKeep refClient (readerOn (optsWith true) freshMailbox) "MBOX"
      SearchUnseen).2.1 [freshEmail] rfl,
    (List_mailbox_state effectsKeep refClient (readerOn (optsWith true) freshMailbox) "NOPE"
      SearchUnseen).2.2 [] "NO no such mailbox" "NOPE" true rfl rfl⟩

/-- Counterexample to C9 as stated: the select succeeds and the search fails;
`List` returns the error of the search without a close, and the mailbox is
left selected, whatever a failed command is taken to do to the state. -/
theorem List_leaves_mailbox_selected :
    (reader.List (scripted quoteWrap) searchFails "INBOX" SearchUnseen).1 =
      .ret ([], some "BAD search refused") ∧
    commands (issued searchFails
      (reader.List (scripted quoteWrap) searchFails "INBOX" SearchUnseen).2.1) =
      [Command.Select "INBOX" true, Command.UIDSearch [.str "UNSEEN"]] ∧
    MailboxState.after effectsKeep .Unselected (issued searchFails
      (reader.List (scripted quoteWrap) searchFails "INBOX" SearchUnseen).2.1) =
      .SelectedReadOnly ∧
    MailboxState.after effectsDrop .Unselected (issued searchFails
      (reader.List (scripted quoteWrap) searchFails "INBOX" SearchUnseen).2.1) =
      .SelectedReadOnly :=
  ⟨rfl, rfl, rfl, rfl⟩

/-- C7, the code at the failing input: the fetch answer carries a record
that parses and a record whose `BODY[]` is a quoted string; `fetch` returns
neither an error nor messages, it panics on the type assertion.  A record
without `BODY[]` does the same. -/
theorem fetch_panics_without_literal :
    (reader.fetch (scripted quoteWrap) fetchWithoutLiteral (some ⟨[1, 4]⟩)).1 =
      .panic "interface conversion: not imap.Literal" ∧
    newEmail quotedRecord = .panic "interface conversion: not imap.Literal" ∧
    newEmail bodylessRecord = .panic "interface conversion: not imap.Literal" :=
  ⟨rfl, rfl, rfl⟩


end Imapreader
